import Mathlib

/-!
Formal model of the broccli command-line library (package broccli):
the typed parameter validator (param.go, flags.go), the command model
(cmd.go) and the run pipeline (cli.go).  Go maps are modelled as
association lists or lookup functions, the filesystem and the OS
environment as explicit parameters, and the onTrue hooks (which in the
source mutate sibling parameters' constraint bits) as a small action
language interpreted over the command.
-/

/-- Value types (flags.go): `TypeString = iota * 1`, then Bool, Int, Float,
Alphanumeric, PathFile. -/
def TypeString : Nat := 0

def TypeBool : Nat := 1

def TypeInt : Nat := 2

def TypeFloat : Nat := 3

def TypeAlphanumeric : Nat := 4

def TypePathFile : Nat := 5

/-- Validation bit flags (flags.go): the block starts with `_ = 1 << iota`,
so IsRequired is bit 1 (value 2) and each later flag doubles. -/
def IsRequired : Nat := 2

def IsExistent : Nat := 4

def IsNotExistent : Nat := 8

def IsDirectory : Nat := 16

def IsRegularFile : Nat := 32

def IsValidJSON : Nat := 64

def AllowDots : Nat := 128

def AllowUnderscore : Nat := 256

def AllowHyphen : Nat := 512

def AllowMultipleValues : Nat := 1024

def SeparatorColon : Nat := 2048

def SeparatorSemiColon : Nat := 4096

/-- Bit test, the `p.flags&Bit > 0` idiom used throughout param.go and
cli.go.  Since the model uses Nat, `> 0` and the source's occasional
`<= 0` negation are complementary. -/
def hasBit (flags bit : Nat) : Bool := decide (0 < flags &&& bit)

/-- Deep embedding of the onTrue hook bodies (param_options.go `OnTrue`).
Hooks in this repository mutate a sibling parameter's constraint bits,
e.g. `c.flags["alphanumdots"].flags |= IsRequired` in cli_test.go; the
action language captures exactly such mutations (on flags or on args)
and their sequencing. -/
inductive HookAction where
  | nop : HookAction
  | seq : HookAction → HookAction → HookAction
  | orFlagBits : String → Nat → HookAction
  | orArgBits : String → Nat → HookAction
deriving DecidableEq

/-- param (param.go): name, alias, valuePlaceholder, usage, valueType,
flags, plus the optional onTrue hook held in paramOptions.  The source
field `alias` is rendered as `aliasName` because `alias` is reserved
here. -/
structure Param where
  name : String
  aliasName : String
  valuePlaceholder : String
  usage : String
  valueType : Nat
  flags : Nat
  onTrue : Option HookAction
deriving DecidableEq

/-- Result of os.Stat as seen by param.validatePathFile: the path does
not exist, stat failed for another reason, or a file/dir entry with its
mode was found. -/
inductive StatResult where
  | notExist : StatResult
  | statError : StatResult
  | found : Bool → Bool → StatResult
deriving DecidableEq

/-- External filesystem collaborator used by param.validatePathFile:
os.Stat (with `found isRegular isDir` exposing Mode().IsRegular and
Mode().IsDir), filepath.Clean, os.ReadFile (none models a read error)
and encoding/json.Valid abstracted as a predicate on contents. -/
structure FileSystem where
  stat : String → StatResult
  clean : String → String
  readFile : String → Option String
  jsonValid : String → Bool

/-- Errors produced by param.validatePathFile (the errFile* values in
param.go, each wrapping the offending path). -/
inductive PathErr where
  | fileNotExist : String → PathErr
  | fileInfo : String → PathErr
  | fileExist : String → PathErr
  | fileNotRegularFile : String → PathErr
  | fileNotDirectory : String → PathErr
  | fileOpen : String → String → PathErr
  | fileNotValidJSON : String → PathErr
deriving DecidableEq

/-- Errors produced by param.validateValue: errParamValueMissing,
errParamValueInvalid, errParamTypeInvalid, and the wrapper
`file path validation failed: %w` around a PathErr. -/
inductive VErr where
  | paramValueMissing : VErr
  | paramValueInvalid : VErr
  | paramTypeInvalid : VErr
  | filePathValidationFailed : PathErr → VErr
deriving DecidableEq

/-- param.validatePathFile (param.go lines 82-120), translated check by
check: stat; not-found succeeds unless IsExistent; IsNotExistent rejects
existing entries; then the regular-file, directory and JSON checks. -/
def validatePathFile (fs : FileSystem) (p : Param) (path : String) : Option PathErr :=
  match fs.stat path with
  | .notExist =>
      if hasBit p.flags IsExistent then some (.fileNotExist path) else none
  | .statError => some (.fileInfo path)
  | .found isRegular isDir =>
      if hasBit p.flags IsNotExistent then some (.fileExist path)
      else if isRegular = false ∧ hasBit p.flags IsRegularFile = true then
        some (.fileNotRegularFile path)
      else if isDir = false ∧ hasBit p.flags IsDirectory = true then
        some (.fileNotDirectory path)
      else if hasBit p.flags IsRegularFile = true ∧ hasBit p.flags IsValidJSON = true then
        match fs.readFile (fs.clean path) with
        | none => some (.fileOpen "validate json" path)
        | some dat => if fs.jsonValid dat = false then some (.fileNotValidJSON path) else none
      else none

/-- Character class `[0-9]` of the generated patterns. -/
def charIsDigit (c : Char) : Bool := decide ('0' ≤ c) && decide (c ≤ '9')

/-- Character class `[0-9a-zA-Z%s]` built for TypeAlphanumeric, where the
extra characters `_`, `.`, `-` are enabled by the corresponding Allow*
bits (param.go lines 161-175). -/
def allowedAlnumChar (flags : Nat) (c : Char) : Bool :=
  charIsDigit c || (decide ('a' ≤ c) && decide (c ≤ 'z')) || (decide ('A' ≤ c) && decide (c ≤ 'Z'))
  || (hasBit flags AllowUnderscore && c == '_')
  || (hasBit flags AllowDots && c == '.')
  || (hasBit flags AllowHyphen && c == '-')

/-- Splits a character list on a separator character; the semantics of
the `(sep ...)*` structure of the generated regular expressions, since
no separator can occur inside a unit match. -/
def splitOnChar (sep : Char) : List Char → List (List Char)
  | [] => [[]]
  | c :: rest =>
      let r := splitOnChar sep rest
      if c = sep then [] :: r
      else (c :: r.headD []) :: r.tail

/-- Joins pieces with a single separator character between repetitions;
used to state what the repeated pattern `unit(sep unit)*` accepts. -/
def joinSep (sep : Char) : List (List Char) → List Char
  | [] => []
  | [p] => p
  | p :: q :: rest => p ++ sep :: joinSep sep (q :: rest)

/-- Anchored match of the unit pattern `[0-9]+` (TypeInt). -/
def intUnitMatch (l : List Char) : Bool := !l.isEmpty && l.all charIsDigit

/-- Anchored match of the unit pattern `[0-9]{1,16}\.[0-9]{1,16}`
(TypeFloat): exactly one dot with 1-16 digits on each side. -/
def floatUnitMatch (l : List Char) : Bool :=
  match splitOnChar '.' l with
  | [a, b] =>
      decide (1 ≤ a.length) && decide (a.length ≤ 16) && a.all charIsDigit
      && decide (1 ≤ b.length) && decide (b.length ≤ 16) && b.all charIsDigit
  | _ => false

/-- Anchored match of the unit pattern `[0-9a-zA-Z%s]+` (TypeAlphanumeric). -/
def alnumUnitMatch (flags : Nat) (l : List Char) : Bool :=
  !l.isEmpty && l.all (allowedAlnumChar flags)

/-- The per-type unit pattern selected by the switch in param.go lines
156-178 (reType). -/
def reUnitMatch (valueType flags : Nat) (l : List Char) : Bool :=
  if valueType = TypeInt then intUnitMatch l
  else if valueType = TypeFloat then floatUnitMatch l
  else alnumUnitMatch flags l

/-- The separator chosen for AllowMultipleValues (param.go lines 182-190):
colon if SeparatorColon, else semicolon if SeparatorSemiColon, else comma. -/
def sepChar (flags : Nat) : Char :=
  if hasBit flags SeparatorColon then ':'
  else if hasBit flags SeparatorSemiColon then ';'
  else ','

/-- Semantics of `regexp.MatchString(reValue, paramValue)` for the two
anchored patterns built in param.go lines 181-195: `^U$`, or
`^U(sepU)*$` when AllowMultipleValues is set.  Since the separator
character cannot occur inside a unit match, the starred pattern accepts
exactly the strings each of whose separator-split pieces matches U. -/
def patternMatch (valueType flags : Nat) (v : String) : Bool :=
  if hasBit flags AllowMultipleValues then
    (splitOnChar (sepChar flags) v.data).all (reUnitMatch valueType flags)
  else reUnitMatch valueType flags v.data

/-- param.validateValue (param.go lines 123-203), branch by branch:
the required-and-empty check, the TypeString early success, the
not-required-and-empty short-circuit, the TypePathFile branch wrapping
validatePathFile errors, the regex branch for Int/Float/Alphanumeric,
and the default errParamTypeInvalid. -/
def validateValue (fs : FileSystem) (p : Param) (v : String) : Option VErr :=
  if p.valueType ≠ TypeBool ∧ hasBit p.flags IsRequired = true ∧ v = "" then
    some .paramValueMissing
  else if p.valueType = TypeString then none
  else if hasBit p.flags IsRequired = false ∧ v = "" then none
  else if p.valueType = TypePathFile then
    match validatePathFile fs p v with
    | some e => some (.filePathValidationFailed e)
    | none => none
  else if p.valueType = TypeInt ∨ p.valueType = TypeFloat ∨ p.valueType = TypeAlphanumeric then
    if patternMatch p.valueType p.flags v then none else some .paramValueInvalid
  else some .paramTypeInvalid

/-- Parsed-value map of the registry (Broccli.parsedFlags /
Broccli.parsedArgs): Go map from names to strings, modelled by its
lookup function. -/
def ParsedMap : Type := String → Option String

/-- Go map write `m[k] = v`. -/
def mapSet (m : ParsedMap) (k v : String) : ParsedMap :=
  fun x => if x = k then some v else m x

/-- Go map read with the zero-value default, the semantics of
Broccli.Flag and Broccli.Arg (cli.go lines 80-88). -/
def mapGet (m : ParsedMap) (k : String) : String := (m k).getD ""

/-- Command (cmd.go): flags, args and env are Go maps from names to
params, modelled as association lists with unique keys; argsOrder holds
the declared positional names in declaration order (the filled prefix of
the ten-slot array, up to argsIdx).  The handler is the user routine,
receiving the Flag and Arg accessors; onPostValidation (command_options)
is modelled as a function of the command's flag-name/flag-bits view. -/
structure Command where
  name : String
  usage : String
  flags : List (String × Param)
  args : List (String × Param)
  argsOrder : List String
  env : List (String × Param)
  handler : (String → String) → (String → String) → Int
  onPostValidation : Option (List (String × Nat) → Option String)

/-- Broccli (cli.go): the application registry with its command map and
registry-level env map. -/
structure Broccli where
  name : String
  usage : String
  author : String
  commands : List (String × Command)
  env : List (String × Param)

/-- Interpretation of a hook body over the command it receives, ORing
constraint bits into the named flag or arg (the only mutations performed
by hooks in this repository). -/
def orBitsOn (ps : List (String × Param)) (n : String) (bits : Nat) : List (String × Param) :=
  ps.map fun kp => if kp.1 = n then (kp.1, { kp.2 with flags := kp.2.flags ||| bits }) else kp

/-- Runs a hook body (the call `cmd.flags[name].options.onTrue(cmd)`). -/
def runHook : HookAction → Command → Command
  | .nop, c => c
  | .seq a b, c => runHook b (runHook a c)
  | .orFlagBits n bits, c => { c with flags := orBitsOn c.flags n bits }
  | .orArgBits n bits, c => { c with args := orBitsOn c.args n bits }

/-- Lexicographic comparison of character lists, the order sort.Strings
uses (byte-wise in Go; identical on the ASCII names this library sorts). -/
def lexLe : List Char → List Char → Bool
  | [], _ => true
  | _ :: _, [] => false
  | a :: as, b :: bs => if a = b then lexLe as bs else decide (a < b)

/-- String comparison backing the model of sort.Strings. -/
def strLeB (a b : String) : Bool := lexLe a.data b.data

instance strLeDecidable : DecidableRel (fun a b : String => strLeB a b = true) :=
  fun a b => inferInstanceAs (Decidable (strLeB a b = true))

/-- sort.Strings: sorts a list of names lexicographically. -/
def sortStrings (l : List String) : List String :=
  l.insertionSort (fun a b => strLeB a b = true)

/-- Command.sortedFlags (cmd.go lines 331-343): the flag map's keys,
sorted lexicographically by sort.Strings. -/
def sortedFlags (c : Command) : List String := sortStrings (c.flags.map Prod.fst)

/-- The `arg.flags&IsRequired > 0` test performed on `c.args[n]` by
Command.sortedArgs; the none branch is unreachable because argsOrder
only holds keys of the args map. -/
def argRequired (c : Command) (n : String) : Bool :=
  match c.args.lookup n with
  | some p => hasBit p.flags IsRequired
  | none => false

/-- Command.sortedArgs (cmd.go lines 300-329): two passes over the
declaration order, required args first, then the non-required ones. -/
def sortedArgs (c : Command) : List String :=
  c.argsOrder.filter (fun n => argRequired c n)
    ++ c.argsOrder.filter (fun n => !argRequired c n)

/-- An entry of the flagNamePtrs / flagAliasPtrs maps built by
Broccli.getFlagSetPtrs: a *bool for TypeBool flags, a *string otherwise.
A Go type assertion on the wrong variant, or on a missing (nil) entry,
panics. -/
inductive FlagVal where
  | b : Bool → FlagVal
  | s : String → FlagVal
deriving DecidableEq

/-- Output of the standard-library flag parser (flag.FlagSet.Parse over
os.Args[2:], an external collaborator): the boolean and string values it
assigned to each registered flag or alias name, and the leftover
non-flag tokens (fset.Args()). -/
structure RawInput where
  boolVal : String → Bool
  strVal : String → String
  argsLeft : List String

/-- Lookup function of the flagNamePtrs map built by getFlagSetPtrs
(cli.go lines 245-278): every declared flag name is registered, as a
bool or string flag according to its valueType. -/
def nflagsOf (cmd : Command) (input : RawInput) : String → Option FlagVal :=
  fun k =>
    match cmd.flags.lookup k with
    | some p =>
        if p.valueType = TypeBool then some (.b (input.boolVal k))
        else some (.s (input.strVal k))
    | none => none

/-- Lookup function of the flagAliasPtrs map built by getFlagSetPtrs:
only non-empty aliases are registered, so the empty string is never a
key; an alias maps to the kind dictated by its flag's valueType. -/
def aflagsOf (cmd : Command) (input : RawInput) : String → Option FlagVal :=
  fun k =>
    if k = "" then none
    else
      match cmd.flags.find? (fun np => np.2.aliasName = k) with
      | some np =>
          if np.2.valueType = TypeBool then some (.b (input.boolVal k))
          else some (.s (input.strVal k))
      | none => none

/-- Error reported to stderr by the parse pipeline before it returns
exit code 1 (cli.go processFlags, processArgs, checkEnv,
processOnPostValidation). -/
inductive RunErr where
  | conflictingForms : String → String → RunErr
  | flagInvalid : String → VErr → RunErr
  | argInvalid : String → VErr → RunErr
  | envInvalid : String → VErr → RunErr
  | postValidationFailed : String → RunErr
deriving DecidableEq

/-- Outcome of one step of the pipeline: a Go panic (crash), a printed
error with exit code 1, or success. -/
inductive StepRes where
  | crash : StepRes
  | failed : RunErr → StepRes
  | ok : StepRes
deriving DecidableEq

/-- Broccli.processOnTrue (cli.go lines 307-328): for each flag name in
order, boolean flags with an onTrue hook run the hook when the long form
or the alias form resolved true.  The short-circuit of
`*(nflags[name]).(*bool) || *(aflags[alias]).(*bool)` is preserved: the
alias entry is only dereferenced when the long form is false, and a
missing entry is a nil type assertion, i.e. a panic (none). -/
def processOnTrueAux (nfl afl : String → Option FlagVal) :
    List String → Command → Option Command
  | [], cmd => some cmd
  | n :: rest, cmd =>
    match cmd.flags.lookup n with
    | none => none
    | some flagP =>
      if flagP.valueType ≠ TypeBool then processOnTrueAux nfl afl rest cmd
      else
        match flagP.onTrue with
        | none => processOnTrueAux nfl afl rest cmd
        | some hook =>
          match nfl n with
          | some (.b bv) =>
            if bv then processOnTrueAux nfl afl rest (runHook hook cmd)
            else
              match afl flagP.aliasName with
              | some (.b av) =>
                if av then processOnTrueAux nfl afl rest (runHook hook cmd)
                else processOnTrueAux nfl afl rest cmd
              | _ => none
          | _ => none

/-- Broccli.processFlags (cli.go lines 330-386).  Boolean flags always
record a merged "true"/"false" (the map write to "false" happens before
the merge, as in the source); other flags panic on a missing alias entry
only when the alias is non-empty (the guard at line 351), fail with the
conflicting-forms error when both forms are non-empty, validate the
chosen value, and record it.  The ParsedMap is threaded, as the source
mutates c.parsedFlags in place. -/
def processFlagsAux (fs : FileSystem) (nfl afl : String → Option FlagVal) :
    List String → Command → ParsedMap → StepRes × ParsedMap
  | [], _, m => (.ok, m)
  | n :: rest, cmd, m =>
    match cmd.flags.lookup n with
    | none => (.crash, m)
    | some flagP =>
      if flagP.valueType = TypeBool then
        let m0 := mapSet m n "false"
        match nfl n with
        | some (.b bv) =>
          if bv then processFlagsAux fs nfl afl rest cmd (mapSet m0 n "true")
          else if flagP.aliasName ≠ "" then
            match afl flagP.aliasName with
            | some (.b av) =>
                processFlagsAux fs nfl afl rest cmd (if av then mapSet m0 n "true" else m0)
            | _ => (.crash, m0)
          else processFlagsAux fs nfl afl rest cmd m0
        | _ => (.crash, m0)
      else
        let aliasValueRes : Option String :=
          if flagP.aliasName ≠ "" then
            match afl flagP.aliasName with
            | some (.s sv) => some sv
            | _ => none
          else some ""
        match aliasValueRes with
        | none => (.crash, m)
        | some aliasValue =>
          match nfl n with
          | some (.s nameValue) =>
            if nameValue ≠ "" ∧ aliasValue ≠ "" then
              (.failed (.conflictingForms flagP.aliasName flagP.name), m)
            else
              let flagValue := if nameValue ≠ "" then nameValue else aliasValue
              match validateValue fs flagP flagValue with
              | some e => (.failed (.flagInvalid n e), m)
              | none => processFlagsAux fs nfl afl rest cmd (mapSet m n flagValue)
          | _ => (.crash, m)

/-- Broccli.processArgs (cli.go lines 388-413): the i-th ordered
positional name receives the i-th leftover token (empty string when the
tokens run out), validates it and records it. -/
def processArgsAux (fs : FileSystem) (cmd : Command) (tokens : List String) :
    List String → Nat → ParsedMap → StepRes × ParsedMap
  | [], _, m => (.ok, m)
  | n :: rest, i, m =>
    let v := tokens.getD i ""
    match cmd.args.lookup n with
    | none => (.crash, m)
    | some arg =>
      match validateValue fs arg v with
      | some e => (.failed (.argInvalid arg.valuePlaceholder e), m)
      | none => processArgsAux fs cmd tokens rest (i + 1) (mapSet m n v)

/-- Per-run view of `envVar.flags |= IsRequired` (cli.go lines 116 and
287): env vars are validated with Required forced on. -/
def forceRequired (p : Param) : Param := { p with flags := p.flags ||| IsRequired }

/-- Body shared by Broccli.checkEnv (cli.go lines 280-305) and the
registry-level env loop in Broccli.Run (lines 113-132): iterate the env
map in the order the Go runtime happens to enumerate it (the `order`
argument, a permutation of the keys — `for ... range` over a Go map is
not sorted), force Required, validate against the OS environment, and
report the first failure. -/
def checkEnvAux (fs : FileSystem) (envm : List (String × Param)) (getenv : String → String) :
    List String → Option RunErr
  | [] => none
  | n :: rest =>
    match envm.lookup n with
    | none => checkEnvAux fs envm getenv rest
    | some p =>
      match validateValue fs (forceRequired p) (getenv n) with
      | some e => some (.envInvalid p.name e)
      | none => checkEnvAux fs envm getenv rest

/-- Broccli.parseFlags (cli.go lines 431-459): command-level env check,
flag-set construction, the onTrue hooks over the (lexicographically
sorted) flag names, flag validation against the hook-mutated command,
positional args (ordered by sortedArgs of the mutated command), and the
post-validation hook. -/
def parseFlagsP (fs : FileSystem) (getenv : String → String) (envOrder : List String)
    (input : RawInput) (cmd : Command) (fm am : ParsedMap) :
    StepRes × ParsedMap × ParsedMap :=
  match checkEnvAux fs cmd.env getenv envOrder with
  | some e => (.failed e, fm, am)
  | none =>
    let flagNames := sortedFlags cmd
    let nfl := nflagsOf cmd input
    let afl := aflagsOf cmd input
    match processOnTrueAux nfl afl flagNames cmd with
    | none => (.crash, fm, am)
    | some cmd2 =>
      match processFlagsAux fs nfl afl flagNames cmd2 fm with
      | (.crash, fm2) => (.crash, fm2, am)
      | (.failed e, fm2) => (.failed e, fm2, am)
      | (.ok, fm2) =>
        match processArgsAux fs cmd2 input.argsLeft (sortedArgs cmd2) 0 am with
        | (.crash, am2) => (.crash, fm2, am2)
        | (.failed e, am2) => (.failed e, fm2, am2)
        | (.ok, am2) =>
          match cmd2.onPostValidation with
          | none => (.ok, fm2, am2)
          | some chk =>
            match chk (cmd2.flags.map fun kp => (kp.1, kp.2.flags)) with
            | some msg => (.failed (.postValidationFailed msg), fm2, am2)
            | none => (.ok, fm2, am2)

/-- Observable outcome of Broccli.Run. -/
inductive RunOutcome where
  | help : RunOutcome
  | commandHelp : String → RunOutcome
  | invalidCommand : String → RunOutcome
  | failed : RunErr → RunOutcome
  | handled : Int → RunOutcome
deriving DecidableEq

/-- The integer Broccli.Run returns for each outcome: 0 for help
screens, 1 for an unknown command or any reported error, and the
handler's return value otherwise. -/
def exitCode : RunOutcome → Int
  | .help => 0
  | .commandHelp _ => 0
  | .invalidCommand _ => 1
  | .failed _ => 1
  | .handled code => code

/-- Broccli.Run (cli.go lines 93-147).  `argv` is os.Args without the
program name; `regEnvOrder` and `cmdEnvOrder` are the enumeration orders
the Go runtime picks for the two env maps.  The loop over
sortedCommands with an exact string comparison is rendered as a map
lookup (command names are unique map keys).  A panic anywhere in the
pipeline yields none: the process crashes instead of returning an exit
code. -/
def run (cli : Broccli) (argv : List String) (fs : FileSystem) (getenv : String → String)
    (regEnvOrder cmdEnvOrder : List String) (input : RawInput) (fm am : ParsedMap) :
    Option RunOutcome :=
  match argv with
  | [] => some .help
  | tok :: rest =>
    if tok = "-h" ∨ tok = "--help" then some .help
    else
      match cli.commands.lookup tok with
      | none => some (.invalidCommand tok)
      | some cmd =>
        if rest.headD "" = "-h" ∨ rest.headD "" = "--help" then some (.commandHelp cmd.name)
        else
          match checkEnvAux fs cli.env getenv regEnvOrder with
          | some e => some (.failed e)
          | none =>
            match parseFlagsP fs getenv cmdEnvOrder input cmd fm am with
            | (.crash, _, _) => none
            | (.failed e, _, _) => some (.failed e)
            | (.ok, fm2, am2) => some (.handled (cmd.handler (mapGet fm2) (mapGet am2)))

/-- A filesystem in which nothing exists; used for concrete runs that
never touch TypePathFile parameters. -/
def fsEmpty : FileSystem :=
  { stat := fun _ => .notExist, clean := fun s => s, readFile := fun _ => none,
    jsonValid := fun _ => false }

/-- A bare parameter of the given type and constraint bits. -/
def mkParam (t f : Nat) : Param :=
  { name := "p", aliasName := "", valuePlaceholder := "P", usage := "", valueType := t,
    flags := f, onTrue := none }

example : validateValue fsEmpty (mkParam TypeInt 0) "48" = none := by decide
example : validateValue fsEmpty (mkParam TypeInt 0) "aa" = some .paramValueInvalid := by decide
example : validateValue fsEmpty (mkParam TypeInt 0) "48.5" = some .paramValueInvalid := by decide
example : validateValue fsEmpty (mkParam TypeFloat 0) "48.998" = none := by decide
example : validateValue fsEmpty (mkParam TypeFloat 0) "48" = some .paramValueInvalid := by decide
example : validateValue fsEmpty (mkParam TypeAlphanumeric 0) "a123aaAEz" = none := by decide
example : validateValue fsEmpty (mkParam TypeAlphanumeric 0) "a.z" = some .paramValueInvalid := by
  decide
example : validateValue fsEmpty (mkParam TypeAlphanumeric AllowDots) "aZ09.az" = none := by decide
example :
    validateValue fsEmpty (mkParam TypeAlphanumeric (AllowHyphen ||| AllowUnderscore)) "aZ09_0-9"
      = none := by decide
example :
    validateValue fsEmpty (mkParam TypeAlphanumeric AllowHyphen) "a_b"
      = some .paramValueInvalid := by decide
example :
    validateValue fsEmpty (mkParam TypeAlphanumeric (AllowMultipleValues ||| AllowDots))
      "aZ09.az,x00,y2.3" = none := by decide
example :
    validateValue fsEmpty (mkParam TypeAlphanumeric (AllowMultipleValues ||| AllowDots))
      "aZ09.az,x-00,y2.3" = some .paramValueInvalid := by decide
example :
    validateValue fsEmpty
      (mkParam TypeAlphanumeric (AllowMultipleValues ||| AllowDots ||| SeparatorSemiColon))
      "aZ09.az,x00" = some .paramValueInvalid := by decide
example :
    validateValue fsEmpty (mkParam TypeInt AllowMultipleValues) "123,455,666" = none := by decide

theorem splitOnChar_ne_nil (sep : Char) (l : List Char) : splitOnChar sep l ≠ [] := by
  cases l with
  | nil => simp [splitOnChar]
  | cons c rest =>
    simp only [splitOnChar]
    split <;> simp

theorem joinSep_splitOnChar (sep : Char) (l : List Char) :
    joinSep sep (splitOnChar sep l) = l := by
  induction l with
  | nil => rfl
  | cons c rest ih =>
    cases hr : splitOnChar sep rest with
    | nil => exact absurd hr (splitOnChar_ne_nil sep rest)
    | cons h t =>
      rw [hr] at ih
      simp only [splitOnChar, hr]
      by_cases hc : c = sep
      · subst hc
        simp only [if_pos rfl, joinSep, List.nil_append]
        rw [ih]
      · simp only [if_neg hc, List.headD_cons, List.tail_cons]
        cases t with
        | nil => simpa [joinSep] using congrArg (c :: ·) ih
        | cons t0 t1 => simpa [joinSep] using congrArg (c :: ·) ih

theorem splitOnChar_not_mem (sep : Char) (l : List Char) :
    ∀ p ∈ splitOnChar sep l, sep ∉ p := by
  induction l with
  | nil => simp [splitOnChar]
  | cons c rest ih =>
    cases hr : splitOnChar sep rest with
    | nil => exact absurd hr (splitOnChar_ne_nil sep rest)
    | cons h t =>
      rw [hr] at ih
      intro p hp
      simp only [splitOnChar, hr] at hp
      by_cases hc : c = sep
      · rw [if_pos hc] at hp
        rcases List.mem_cons.mp hp with h1 | h2
        · simp [h1]
        · exact ih p h2
      · rw [if_neg hc] at hp
        simp only [List.headD_cons, List.tail_cons] at hp
        rcases List.mem_cons.mp hp with h1 | h2
        · subst h1
          intro hmem
          rcases List.mem_cons.mp hmem with h3 | h4
          · exact hc h3.symm
          · exact ih h (List.mem_cons_self h t) h4
        · exact ih p (List.mem_cons_of_mem h h2)

theorem splitOnChar_no_sep (sep : Char) (l : List Char) (h : sep ∉ l) :
    splitOnChar sep l = [l] := by
  induction l with
  | nil => rfl
  | cons c rest ih =>
    have hc : c ≠ sep := fun hcs => h (hcs ▸ List.mem_cons_self c rest)
    have hrest : sep ∉ rest := fun hm => h (List.mem_cons_of_mem c hm)
    simp [splitOnChar, ih hrest, if_neg hc]

theorem splitOnChar_append_sep (sep : Char) (p m : List Char) (h : sep ∉ p) :
    splitOnChar sep (p ++ sep :: m) = p :: splitOnChar sep m := by
  induction p with
  | nil => simp [splitOnChar]
  | cons c q ih =>
    have hc : c ≠ sep := fun hcs => h (hcs ▸ List.mem_cons_self c q)
    have hq : sep ∉ q := fun hm => h (List.mem_cons_of_mem c hm)
    simp [splitOnChar, ih hq, if_neg hc]

theorem splitOnChar_joinSep (sep : Char) (pieces : List (List Char))
    (hne : pieces ≠ []) (h : ∀ p ∈ pieces, sep ∉ p) :
    splitOnChar sep (joinSep sep pieces) = pieces := by
  induction pieces with
  | nil => exact absurd rfl hne
  | cons p rest ih =>
    cases rest with
    | nil =>
      simp only [joinSep]
      exact splitOnChar_no_sep sep p (h p (List.mem_cons_self p []))
    | cons q t =>
      have hp : sep ∉ p := h p (List.mem_cons_self p (q :: t))
      have hrest : ∀ x ∈ q :: t, sep ∉ x := fun x hx => h x (List.mem_cons_of_mem p hx)
      simp only [joinSep]
      rw [splitOnChar_append_sep sep p _ hp, ih (by simp) hrest]

theorem all_splitOnChar_iff (sep : Char) (U : List Char → Bool)
    (hU : ∀ p, U p = true → sep ∉ p) (l : List Char) :
    (splitOnChar sep l).all U = true ↔
      ∃ pieces : List (List Char),
        pieces ≠ [] ∧ (∀ p ∈ pieces, U p = true) ∧ l = joinSep sep pieces := by
  constructor
  · intro hall
    refine ⟨splitOnChar sep l, splitOnChar_ne_nil sep l, ?_, (joinSep_splitOnChar sep l).symm⟩
    exact fun p hp => (List.all_eq_true.mp hall) p hp
  · rintro ⟨pieces, hne, hall, rfl⟩
    rw [splitOnChar_joinSep sep pieces hne (fun p hp => hU p (hall p hp))]
    exact List.all_eq_true.mpr hall

theorem splitOnChar_eq_pair_iff (sep : Char) (l a b : List Char) :
    splitOnChar sep l = [a, b] ↔ l = a ++ sep :: b ∧ sep ∉ a ∧ sep ∉ b := by
  constructor
  · intro h
    refine ⟨?_, ?_, ?_⟩
    · have := joinSep_splitOnChar sep l
      rw [h] at this
      simpa [joinSep] using this.symm
    · exact splitOnChar_not_mem sep l a (h ▸ List.mem_cons_self a [b])
    · exact splitOnChar_not_mem sep l b (h ▸ List.mem_cons_of_mem a (List.mem_cons_self b []))
  · rintro ⟨rfl, ha, hb⟩
    rw [splitOnChar_append_sep sep a _ ha, splitOnChar_no_sep sep b hb]

/-- Character class stated by the specification for Alphanumeric values:
digits and letters, plus dot, underscore and hyphen exactly when the
corresponding Allow* flag is set. -/
def specAllowedChar (flags : Nat) (c : Char) : Prop :=
  charIsDigit c = true ∨ ('a' ≤ c ∧ c ≤ 'z') ∨ ('A' ≤ c ∧ c ≤ 'Z')
  ∨ (hasBit flags AllowDots = true ∧ c = '.')
  ∨ (hasBit flags AllowUnderscore = true ∧ c = '_')
  ∨ (hasBit flags AllowHyphen = true ∧ c = '-')

/-- Unit pattern stated by the specification: Int is one-or-more digits;
Float is 1-16 digits, a dot, 1-16 digits; Alphanumeric is one-or-more
allowed characters. -/
def SpecUnitMatch (valueType flags : Nat) (l : List Char) : Prop :=
  if valueType = TypeInt then l ≠ [] ∧ ∀ c ∈ l, charIsDigit c = true
  else if valueType = TypeFloat then
    ∃ a b : List Char, l = a ++ '.' :: b ∧ 1 ≤ a.length ∧ a.length ≤ 16 ∧
      1 ≤ b.length ∧ b.length ≤ 16 ∧
      (∀ c ∈ a, charIsDigit c = true) ∧ ∀ c ∈ b, charIsDigit c = true
  else l ≠ [] ∧ ∀ c ∈ l, specAllowedChar flags c

/-- Full pattern stated by the specification: the unit pattern against
the whole value, or, when AllowMultipleValues is set, the unit pattern
repeated with the separator between repetitions, anchored at both ends. -/
def SpecPatternMatch (valueType flags : Nat) (v : String) : Prop :=
  if hasBit flags AllowMultipleValues = true then
    ∃ pieces : List (List Char),
      pieces ≠ [] ∧ (∀ p ∈ pieces, SpecUnitMatch valueType flags p) ∧
      v.data = joinSep (sepChar flags) pieces
  else SpecUnitMatch valueType flags v.data

theorem allowedAlnumChar_iff (flags : Nat) (c : Char) :
    allowedAlnumChar flags c = true ↔ specAllowedChar flags c := by
  simp only [allowedAlnumChar, specAllowedChar, Bool.or_eq_true, Bool.and_eq_true,
    decide_eq_true_eq, beq_iff_eq]
  tauto

theorem intUnitMatch_iff (l : List Char) :
    intUnitMatch l = true ↔ l ≠ [] ∧ ∀ c ∈ l, charIsDigit c = true := by
  simp [intUnitMatch, List.all_eq_true, List.isEmpty_iff]

theorem alnumUnitMatch_iff (flags : Nat) (l : List Char) :
    alnumUnitMatch flags l = true ↔ l ≠ [] ∧ ∀ c ∈ l, specAllowedChar flags c := by
  simp [alnumUnitMatch, List.all_eq_true, List.isEmpty_iff, allowedAlnumChar_iff]

theorem floatUnitMatch_iff (l : List Char) :
    floatUnitMatch l = true ↔
      ∃ a b : List Char, l = a ++ '.' :: b ∧ 1 ≤ a.length ∧ a.length ≤ 16 ∧
        1 ≤ b.length ∧ b.length ≤ 16 ∧
        (∀ c ∈ a, charIsDigit c = true) ∧ ∀ c ∈ b, charIsDigit c = true := by
  constructor
  · intro h
    unfold floatUnitMatch at h
    rcases hs : splitOnChar '.' l with _ | ⟨a, _ | ⟨b, _ | ⟨x, r⟩⟩⟩ <;> rw [hs] at h <;>
      simp only [Bool.and_eq_true, decide_eq_true_eq, List.all_eq_true] at h
    · exact absurd h (by simp)
    · exact absurd h (by simp)
    · obtain ⟨⟨⟨⟨⟨h1, h2⟩, h3⟩, h4⟩, h5⟩, h6⟩ := h
      obtain ⟨hl, _, _⟩ := (splitOnChar_eq_pair_iff '.' l a b).mp hs
      exact ⟨a, b, hl, h1, h2, h4, h5, h3, h6⟩
    · exact absurd h (by simp)
  · rintro ⟨a, b, rfl, h1, h2, h3, h4, h5, h6⟩
    have ha : '.' ∉ a := fun hm => absurd (h5 '.' hm) (by decide)
    have hb : '.' ∉ b := fun hm => absurd (h6 '.' hm) (by decide)
    have hs := (splitOnChar_eq_pair_iff '.' (a ++ '.' :: b) a b).mpr ⟨rfl, ha, hb⟩
    unfold floatUnitMatch
    rw [hs]
    simp only [Bool.and_eq_true, decide_eq_true_eq, List.all_eq_true]
    exact ⟨⟨⟨⟨⟨h1, h2⟩, h5⟩, h3⟩, h4⟩, h6⟩

theorem reUnitMatch_iff (valueType flags : Nat) (l : List Char) :
    reUnitMatch valueType flags l = true ↔ SpecUnitMatch valueType flags l := by
  unfold reUnitMatch SpecUnitMatch
  split_ifs with h1 h2
  · exact intUnitMatch_iff l
  · exact floatUnitMatch_iff l
  · exact alnumUnitMatch_iff flags l

theorem specAllowedChar_not_sep (flags : Nat) (c : Char)
    (h : specAllowedChar flags c) (hc : c = ':' ∨ c = ';' ∨ c = ',') : False := by
  rcases hc with rfl | rfl | rfl <;>
    rcases h with hd | ⟨ha, _⟩ | ⟨ha, _⟩ | ⟨_, he⟩ | ⟨_, he⟩ | ⟨_, he⟩ <;>
    first
      | exact absurd hd (by decide)
      | exact absurd ha (by decide)
      | exact absurd he (by decide)

theorem sepChar_cases (flags : Nat) :
    sepChar flags = ':' ∨ sepChar flags = ';' ∨ sepChar flags = ',' := by
  unfold sepChar
  split_ifs <;> simp

theorem reUnitMatch_no_sep (valueType flags : Nat) (p : List Char)
    (h : reUnitMatch valueType flags p = true) : sepChar flags ∉ p := by
  intro hmem
  have hsep := sepChar_cases flags
  unfold reUnitMatch at h
  split_ifs at h with h1 h2
  · have hd := ((intUnitMatch_iff p).mp h).2 _ hmem
    rcases hsep with hs | hs | hs <;> rw [hs] at hd <;> exact absurd hd (by decide)
  · obtain ⟨a, b, hl, _, _, _, _, ha, hb⟩ := (floatUnitMatch_iff p).mp h
    rw [hl] at hmem
    rcases List.mem_append.mp hmem with hma | hmb
    · have hda := ha _ hma
      rcases hsep with hs | hs | hs <;> rw [hs] at hda <;> exact absurd hda (by decide)
    · rcases List.mem_cons.mp hmb with hdot | hmb2
      · rcases hsep with hs | hs | hs <;> rw [hs] at hdot <;> exact absurd hdot (by decide)
      · have hdb := hb _ hmb2
        rcases hsep with hs | hs | hs <;> rw [hs] at hdb <;> exact absurd hdb (by decide)
  · have hspec := ((alnumUnitMatch_iff flags p).mp h).2 _ hmem
    exact specAllowedChar_not_sep flags _ hspec hsep

theorem patternMatch_iff (valueType flags : Nat) (v : String) :
    patternMatch valueType flags v = true ↔ SpecPatternMatch valueType flags v := by
  unfold patternMatch SpecPatternMatch
  by_cases hm : hasBit flags AllowMultipleValues = true
  · rw [if_pos hm, if_pos hm]
    rw [all_splitOnChar_iff (sepChar flags) (reUnitMatch valueType flags)
      (fun p hp => reUnitMatch_no_sep valueType flags p hp) v.data]
    constructor
    · rintro ⟨pieces, hne, hall, hjoin⟩
      exact ⟨pieces, hne, fun p hp => (reUnitMatch_iff valueType flags p).mp (hall p hp), hjoin⟩
    · rintro ⟨pieces, hne, hall, hjoin⟩
      exact ⟨pieces, hne, fun p hp => (reUnitMatch_iff valueType flags p).mpr (hall p hp), hjoin⟩
  · rw [if_neg hm, if_neg hm]
    exact reUnitMatch_iff valueType flags v.data

theorem validateValue_pattern (fs : FileSystem) (p : Param) (v : String)
    (ht : p.valueType = TypeInt ∨ p.valueType = TypeFloat ∨ p.valueType = TypeAlphanumeric)
    (hv : v ≠ "") :
    validateValue fs p v =
      if patternMatch p.valueType p.flags v then none else some .paramValueInvalid := by
  have hns : p.valueType ≠ TypeString := by rcases ht with h | h | h <;> rw [h] <;> decide
  have hnp : p.valueType ≠ TypePathFile := by rcases ht with h | h | h <;> rw [h] <;> decide
  unfold validateValue
  rw [if_neg (fun hc => hv hc.2.2), if_neg hns, if_neg (fun hc => hv hc.2), if_neg hnp, if_pos ht]

/-- Statement of claim C1 exactly as written: for every Int, Float or
Alphanumeric parameter and every raw value, validation succeeds iff the
whole value matches the (possibly separator-repeated) unit pattern, and
any non-match fails with ValueInvalid. -/
def ClaimC1 : Prop :=
  ∀ (fs : FileSystem) (p : Param) (v : String),
    p.valueType = TypeInt ∨ p.valueType = TypeFloat ∨ p.valueType = TypeAlphanumeric →
    (validateValue fs p v = none ↔ SpecPatternMatch p.valueType p.flags v) ∧
    (¬ SpecPatternMatch p.valueType p.flags v → validateValue fs p v = some .paramValueInvalid)

/-- C1, counterexample to the claim as stated: a non-required Int
parameter accepts the empty string (the not-required-and-empty
short-circuit of validateValue fires before the regex branch is
reached), yet the empty string does not match the anchored pattern
`[0-9]+`, so success is not equivalent to a pattern match. -/
theorem c1_counterexample :
    validateValue fsEmpty (mkParam TypeInt 0) "" = none ∧
    ¬ SpecPatternMatch TypeInt 0 "" ∧ ¬ ClaimC1 := by
  have hnospec : ¬ SpecPatternMatch TypeInt 0 "" := by
    intro hspec
    unfold SpecPatternMatch at hspec
    rw [if_neg (by decide)] at hspec
    unfold SpecUnitMatch at hspec
    rw [if_pos rfl] at hspec
    exact hspec.1 rfl
  refine ⟨by decide, hnospec, fun hcl => ?_⟩
  exact hnospec ((hcl fsEmpty (mkParam TypeInt 0) "" (Or.inl rfl)).1.mp (by decide))

/-- C1 (amended: non-empty raw values): for every Int, Float or
Alphanumeric parameter and every non-empty raw value, validation
succeeds iff the entire value, anchored at start and end, matches the
unit pattern for the type — repeated with the chosen separator when
AllowMultipleValues is set — and fails with ValueInvalid on any
non-match. -/
theorem c1_amended (fs : FileSystem) (p : Param) (v : String)
    (ht : p.valueType = TypeInt ∨ p.valueType = TypeFloat ∨ p.valueType = TypeAlphanumeric)
    (hv : v ≠ "") :
    (validateValue fs p v = none ↔ SpecPatternMatch p.valueType p.flags v) ∧
    (¬ SpecPatternMatch p.valueType p.flags v → validateValue fs p v = some .paramValueInvalid) := by
  rw [validateValue_pattern fs p v ht hv]
  have hiff := patternMatch_iff p.valueType p.flags v
  by_cases hm : patternMatch p.valueType p.flags v = true
  · rw [if_pos hm]
    exact ⟨⟨fun _ => hiff.mp hm, fun _ => rfl⟩, fun hns => absurd (hiff.mp hm) hns⟩
  · rw [if_neg hm]
    exact ⟨⟨fun h => absurd h (by simp), fun hs => absurd (hiff.mpr hs) hm⟩, fun _ => rfl⟩

/-- C1, witness: the amended theorem applied to a concrete multi-value
Alphanumeric parameter with dots allowed and comma-separated input. -/
theorem c1_witness :
    (validateValue fsEmpty (mkParam TypeAlphanumeric (AllowMultipleValues ||| AllowDots))
        "aZ09.az,x00,y2.3" = none ↔
      SpecPatternMatch TypeAlphanumeric (AllowMultipleValues ||| AllowDots) "aZ09.az,x00,y2.3") ∧
    (¬ SpecPatternMatch TypeAlphanumeric (AllowMultipleValues ||| AllowDots) "aZ09.az,x00,y2.3" →
      validateValue fsEmpty (mkParam TypeAlphanumeric (AllowMultipleValues ||| AllowDots))
        "aZ09.az,x00,y2.3" = some .paramValueInvalid) :=
  c1_amended fsEmpty (mkParam TypeAlphanumeric (AllowMultipleValues ||| AllowDots))
    "aZ09.az,x00,y2.3" (Or.inr (Or.inr rfl)) (by decide)

/-- First applicable error of an ordered check list. -/
def firstErr : List (Option PathErr) → Option PathErr
  | [] => none
  | some e :: _ => some e
  | none :: rest => firstErr rest

/-- Path validation as enumerated by the specification: stat the path;
when no entry is found succeed unless MustExist (IsExistent) is set;
when an entry is found, return the first applicable error of the
MustNotExist, regular-file, directory and JSON checks in that order,
otherwise succeed.  A stat failure other than not-found (outside the
specification's enumeration) reports the stat error as the source does. -/
def pathSpecCheck (fs : FileSystem) (p : Param) (path : String) : Option PathErr :=
  match fs.stat path with
  | .notExist => if hasBit p.flags IsExistent then some (.fileNotExist path) else none
  | .statError => some (.fileInfo path)
  | .found isRegular isDir =>
      firstErr
        [ if hasBit p.flags IsNotExistent = true then some (.fileExist path) else none,
          if hasBit p.flags IsRegularFile = true ∧ isRegular = false then
            some (.fileNotRegularFile path)
          else none,
          if hasBit p.flags IsDirectory = true ∧ isDir = false then
            some (.fileNotDirectory path)
          else none,
          if hasBit p.flags IsRegularFile = true ∧ hasBit p.flags IsValidJSON = true then
            match fs.readFile (fs.clean path) with
            | none => some (.fileOpen "validate json" path)
            | some dat => if fs.jsonValid dat = true then none else some (.fileNotValidJSON path)
          else none ]

theorem validatePathFile_eq_spec (fs : FileSystem) (p : Param) (path : String) :
    validatePathFile fs p path = pathSpecCheck fs p path := by
  unfold validatePathFile pathSpecCheck
  cases fs.stat path with
  | notExist => rfl
  | statError => rfl
  | found isRegular isDir =>
    simp only []
    cases hrf : fs.readFile (fs.clean path) with
    | none =>
      split_ifs <;> first | rfl | simp_all [firstErr]
    | some dat =>
      cases hjv : fs.jsonValid dat <;>
        split_ifs <;> first | rfl | simp_all [firstErr]

/-- Statement of claim C2 exactly as written: for every PathFile
parameter with a non-empty value or with Required set, validation
returns exactly the (wrapped) result of the ordered path checks. -/
def ClaimC2 : Prop :=
  ∀ (fs : FileSystem) (p : Param) (v : String),
    p.valueType = TypePathFile →
    (v ≠ "" ∨ hasBit p.flags IsRequired = true) →
    validateValue fs p v = (pathSpecCheck fs p v).map VErr.filePathValidationFailed

/-- C2, counterexample to the claim as stated: a Required PathFile
parameter with MustExist set, validated against the empty value, fails
with ValueMissing (the required-and-empty check precedes the path
branch), while the claim's path checks would report PathNotFound. -/
theorem c2_counterexample :
    validateValue fsEmpty (mkParam TypePathFile (IsRequired ||| IsExistent)) ""
        = some .paramValueMissing ∧
    (pathSpecCheck fsEmpty (mkParam TypePathFile (IsRequired ||| IsExistent)) "").map
        VErr.filePathValidationFailed = some (.filePathValidationFailed (.fileNotExist "")) ∧
    ¬ ClaimC2 := by
  refine ⟨by decide, by decide, fun hcl => ?_⟩
  have h := hcl fsEmpty (mkParam TypePathFile (IsRequired ||| IsExistent)) "" rfl
    (Or.inr (by decide))
  exact absurd h (by decide)

/-- C2 (amended: non-empty values): for every PathFile parameter and
every non-empty value, validation returns exactly the wrapped result of
the ordered path checks: not-found succeeds unless MustExist
(PathNotFound); an existing entry fails PathAlreadyExists under
MustNotExist, then NotARegularFile, then NotADirectory, then the JSON
checks (FileUnreadable / InvalidJSON), in that order; otherwise it
succeeds. -/
theorem c2_amended (fs : FileSystem) (p : Param) (v : String)
    (ht : p.valueType = TypePathFile) (hv : v ≠ "") :
    validateValue fs p v = (pathSpecCheck fs p v).map VErr.filePathValidationFailed := by
  unfold validateValue
  rw [if_neg (fun hc => hv hc.2.2), if_neg (ht ▸ (by decide : TypePathFile ≠ TypeString)),
    if_neg (fun hc => hv hc.2), if_pos ht, ← validatePathFile_eq_spec]
  cases h : validatePathFile fs p v with
  | none => rfl
  | some e => rfl

/-- A filesystem with a single regular file named f whose contents the
JSON validator accepts. -/
def fsJson : FileSystem :=
  { stat := fun path => if path = "f" then .found true false else .notExist,
    clean := fun s => s,
    readFile := fun path => if path = "f" then some "ok" else none,
    jsonValid := fun s => s == "ok" }

/-- C2, witness: the amended theorem applied to an existing regular file
holding valid JSON, checked with MustBeRegularFile and MustBeValidJSON. -/
theorem c2_witness :
    validateValue fsJson (mkParam TypePathFile (IsRegularFile ||| IsValidJSON)) "f"
      = (pathSpecCheck fsJson (mkParam TypePathFile (IsRegularFile ||| IsValidJSON)) "f").map
          VErr.filePathValidationFailed :=
  c2_amended fsJson (mkParam TypePathFile (IsRegularFile ||| IsValidJSON)) "f" rfl (by decide)

/-- C4: for every parameter whose type is not Bool and whose Required
flag is set, validating the empty string fails with ValueMissing; and
for every String parameter validation succeeds after that check — any
non-empty value succeeds, and the empty value succeeds whenever Required
is unset. -/
theorem c4_required_empty_and_string :
    (∀ (fs : FileSystem) (p : Param), p.valueType ≠ TypeBool →
      hasBit p.flags IsRequired = true → validateValue fs p "" = some .paramValueMissing) ∧
    (∀ (fs : FileSystem) (p : Param) (v : String), p.valueType = TypeString → v ≠ "" →
      validateValue fs p v = none) ∧
    (∀ (fs : FileSystem) (p : Param) (v : String), p.valueType = TypeString →
      hasBit p.flags IsRequired = false → validateValue fs p v = none) := by
  refine ⟨fun fs p hb hr => ?_, fun fs p v hs hv => ?_, fun fs p v hs hr => ?_⟩
  · unfold validateValue
    rw [if_pos ⟨hb, hr, rfl⟩]
  · unfold validateValue
    rw [if_neg (fun hc => hv hc.2.2), if_pos hs]
  · unfold validateValue
    rw [if_neg (fun hc => absurd (hr.symm.trans hc.2.1) (by decide)), if_pos hs]

/-- C4, witness: a Required Int parameter rejects the empty string with
ValueMissing, and a non-required String parameter accepts the empty
string. -/
theorem c4_witness :
    validateValue fsEmpty (mkParam TypeInt IsRequired) "" = some .paramValueMissing ∧
    validateValue fsEmpty (mkParam TypeString IsRequired) "x" = none ∧
    validateValue fsEmpty (mkParam TypeString 0) "" = none :=
  ⟨c4_required_empty_and_string.1 fsEmpty (mkParam TypeInt IsRequired) (by decide) (by decide),
   c4_required_empty_and_string.2.1 fsEmpty (mkParam TypeString IsRequired) "x" rfl (by decide),
   c4_required_empty_and_string.2.2 fsEmpty (mkParam TypeString 0) "" rfl (by decide)⟩

theorem land_lor_self (x b : Nat) : (x ||| b) &&& b = b := by
  apply Nat.eq_of_testBit_eq
  intro i
  rw [Nat.testBit_land, Nat.testBit_lor]
  cases Nat.testBit x i <;> cases Nat.testBit b i <;> rfl

theorem hasBit_lor_self (x b : Nat) (hb : 0 < b) : hasBit (x ||| b) b = true := by
  unfold hasBit
  rw [land_lor_self]
  exact decide_eq_true hb

/-- Forcing Required on a Bool-typed parameter and validating any value
hits the validator's default branch: the required-and-empty check only
applies to non-Bool types, the empty short-circuit needs Required unset,
and the type switch has no Bool case, so errParamTypeInvalid results. -/
theorem validateValue_bool_forced (fs : FileSystem) (p : Param) (v : String)
    (ht : p.valueType = TypeBool) :
    validateValue fs (forceRequired p) v = some .paramTypeInvalid := by
  have hreq : hasBit (forceRequired p).flags IsRequired = true :=
    hasBit_lor_self p.flags IsRequired (by decide)
  have h1 : ¬((forceRequired p).valueType ≠ TypeBool ∧
      hasBit (forceRequired p).flags IsRequired = true ∧ v = "") := fun hc => hc.1 ht
  have h2 : ¬((forceRequired p).valueType = TypeString) := by
    show ¬(p.valueType = TypeString)
    rw [ht]
    decide
  have h3 : ¬(hasBit (forceRequired p).flags IsRequired = false ∧ v = "") := fun hc => by
    rw [hreq] at hc
    exact absurd hc.1 (by decide)
  have h4 : ¬((forceRequired p).valueType = TypePathFile) := by
    show ¬(p.valueType = TypePathFile)
    rw [ht]
    decide
  have h5 : ¬((forceRequired p).valueType = TypeInt ∨ (forceRequired p).valueType = TypeFloat ∨
      (forceRequired p).valueType = TypeAlphanumeric) := by
    show ¬(p.valueType = TypeInt ∨ p.valueType = TypeFloat ∨ p.valueType = TypeAlphanumeric)
    rw [ht]
    decide
  unfold validateValue
  rw [if_neg h1, if_neg h2, if_neg h3, if_neg h4, if_neg h5]

/-- The env check cannot succeed when a Bool-typed env var is among the
names it visits: that entry always fails validation. -/
theorem checkEnvAux_fails_of_bool (fs : FileSystem) (envm : List (String × Param))
    (getenv : String → String) (order : List String) (n : String) (p : Param)
    (hlook : envm.lookup n = some p) (ht : p.valueType = TypeBool) (hmem : n ∈ order) :
    checkEnvAux fs envm getenv order ≠ none := by
  induction order with
  | nil => cases hmem
  | cons h t ih =>
    rcases List.mem_cons.mp hmem with rfl | hmem2
    · simp only [checkEnvAux, hlook, validateValue_bool_forced fs p (getenv n) ht]
      simp
    · simp only [checkEnvAux]
      cases hl : envm.lookup h with
      | none =>
        simp only [hl]
        exact ih hmem2
      | some q =>
        simp only [hl]
        cases hv : validateValue fs (forceRequired q) (getenv h) with
        | some e => simp [hv]
        | none =>
          simp only [hv]
          exact ih hmem2

/-- C10: an env var declared with ValueType Bool always fails the env
check with TypeInvalid, for every environment value: env vars are forced
Required, so the empty short-circuit never applies and the type switch
has no Bool branch; consequently a run reaching the env check of a
command with such an env var exits with code 1. -/
theorem c10_bool_env_always_fails :
    (∀ (fs : FileSystem) (p : Param) (v : String), p.valueType = TypeBool →
      validateValue fs (forceRequired p) v = some .paramTypeInvalid) ∧
    (∀ (fs : FileSystem) (envm : List (String × Param)) (getenv : String → String)
      (order : List String) (n : String) (p : Param),
      envm.lookup n = some p → p.valueType = TypeBool → n ∈ order →
      checkEnvAux fs envm getenv order ≠ none) ∧
    (∀ (cli : Broccli) (tok : String) (rest : List String) (fs : FileSystem)
      (ge : String → String) (ro co : List String) (input : RawInput) (fm am : ParsedMap)
      (cmd : Command) (n : String) (p : Param),
      tok ≠ "-h" → tok ≠ "--help" → cli.commands.lookup tok = some cmd →
      rest.headD "" ≠ "-h" → rest.headD "" ≠ "--help" →
      checkEnvAux fs cli.env ge ro = none →
      cmd.env.lookup n = some p → p.valueType = TypeBool → n ∈ co →
      ∃ e, run cli (tok :: rest) fs ge ro co input fm am = some (.failed e) ∧
        exitCode (.failed e) = 1) := by
  refine ⟨validateValue_bool_forced, checkEnvAux_fails_of_bool, ?_⟩
  intro cli tok rest fs ge ro co input fm am cmd n p h1 h2 hcmd h3 h4 hreg hlook ht hmem
  have hfail := checkEnvAux_fails_of_bool fs cmd.env ge co n p hlook ht hmem
  obtain ⟨e, he⟩ : ∃ e, checkEnvAux fs cmd.env ge co = some e := by
    cases hc : checkEnvAux fs cmd.env ge co with
    | none => exact absurd hc hfail
    | some e => exact ⟨e, rfl⟩
  refine ⟨e, ?_, rfl⟩
  unfold run
  simp only []
  rw [if_neg (not_or.mpr ⟨h1, h2⟩)]
  simp only [hcmd]
  rw [if_neg (not_or.mpr ⟨h3, h4⟩)]
  simp only [hreg, parseFlagsP, he]

/-- C10, witness: a command declaring env var FOO with ValueType Bool;
with FOO set to the string true in the environment, the run reports the
TypeInvalid env error and exits 1. -/
theorem c10_witness :
    ∃ e,
      run
        { name := "Example", usage := "App", author := "A",
          commands :=
            [("cmd",
              { name := "cmd", usage := "", flags := [], args := [], argsOrder := [],
                env := [("FOO",
                  { name := "FOO", aliasName := "", valuePlaceholder := "", usage := "",
                    valueType := TypeBool, flags := 0, onTrue := none })],
                handler := fun _ _ => 0, onPostValidation := none })],
          env := [] }
        ["cmd"] fsEmpty (fun _ => "true") [] ["FOO"] 
        { boolVal := fun _ => false, strVal := fun _ => "", argsLeft := [] }
        (fun _ => none) (fun _ => none) = some (.failed e) ∧
      exitCode (.failed e) = 1 :=
  c10_bool_env_always_fails.2.2 _ "cmd" [] fsEmpty (fun _ => "true") [] ["FOO"] _ _ _ _ "FOO" _
    (by decide) (by decide) rfl (by decide) (by decide) rfl rfl rfl (by decide)

theorem mapSet_ne (m : ParsedMap) (k v x : String) (h : x ≠ k) : mapSet m k v x = m x := by
  simp [mapSet, h]

theorem mapSet_same (m : ParsedMap) (k v : String) : mapSet m k v k = some v := by
  simp [mapSet]

theorem processArgsAux_frame (fs : FileSystem) (cmd : Command) (tokens : List String) :
    ∀ (lst : List String) (k : Nat) (m : ParsedMap) (x : String), x ∉ lst →
      (processArgsAux fs cmd tokens lst k m).2 x = m x := by
  intro lst
  induction lst with
  | nil => intro k m x _; rfl
  | cons n rest ih =>
    intro k m x hx
    have hxn : x ≠ n := fun h => hx (h ▸ List.mem_cons_self n rest)
    have hxr : x ∉ rest := fun h => hx (List.mem_cons_of_mem n h)
    simp only [processArgsAux]
    cases hl : cmd.args.lookup n with
    | none => rfl
    | some arg =>
      simp only []
      cases hv : validateValue fs arg (tokens.getD k "") with
      | some e => rfl
      | none =>
        exact (ih (k + 1) (mapSet m n (tokens.getD k "")) x hxr).trans
          (mapSet_ne m n _ x hxn)

theorem processArgsAux_assign (fs : FileSystem) (cmd : Command) (tokens : List String) :
    ∀ (lst : List String) (k : Nat) (m m₁ : ParsedMap),
      lst.Nodup →
      processArgsAux fs cmd tokens lst k m = (.ok, m₁) →
      ∀ i (h : i < lst.length), m₁ (lst.get ⟨i, h⟩) = some (tokens.getD (k + i) "") := by
  intro lst
  induction lst with
  | nil =>
    intro k m m₁ _ _ i h
    exact absurd h (by simp)
  | cons n rest ih =>
    intro k m m₁ hnd hrun i h
    simp only [processArgsAux] at hrun
    cases hl : cmd.args.lookup n with
    | none =>
      rw [hl] at hrun
      simp at hrun
    | some arg =>
      rw [hl] at hrun
      simp only [] at hrun
      cases hv : validateValue fs arg (tokens.getD k "") with
      | some e =>
        rw [hv] at hrun
        simp at hrun
      | none =>
        rw [hv] at hrun
        simp only [] at hrun
        have hm₁ : (processArgsAux fs cmd tokens rest (k + 1)
            (mapSet m n (tokens.getD k ""))).2 = m₁ := congrArg Prod.snd hrun
        obtain ⟨hnmem, hndr⟩ := List.nodup_cons.mp hnd
        cases i with
        | zero =>
          show m₁ n = some (tokens.getD (k + 0) "")
          rw [← hm₁, processArgsAux_frame fs cmd tokens rest (k + 1) _ n hnmem, mapSet_same,
            Nat.add_zero]
        | succ j =>
          have hj : j < rest.length := by
            simpa [Nat.succ_lt_succ_iff] using h
          have hrec := ih (k + 1) (mapSet m n (tokens.getD k "")) m₁ hndr hrun j hj
          show m₁ (rest.get ⟨j, hj⟩) = some (tokens.getD (k + (j + 1)) "")
          exact hrec.trans (congrArg (fun t => some (tokens.getD t "")) (by omega))

/-- Command with one non-required positional arg declared before one
required positional arg, the ordering example of the specification. -/
def c5Cmd : Command :=
  { name := "cmd", usage := "", flags := [],
    args := [("opt1", mkParam TypeString 0), ("req1", mkParam TypeString IsRequired)],
    argsOrder := ["opt1", "req1"], env := [],
    handler := fun _ _ => 0, onPostValidation := none }

/-- C5: positional-argument ordering is the stable two-pass partition of
the declaration order (required first); declaring [opt1 (non-required),
req1 (required)] yields [req1, opt1]; and when processing succeeds the
i-th ordered name receives the i-th leftover token, with missing
trailing tokens treated as the empty string. -/
theorem c5_sorted_args_order :
    sortedArgs c5Cmd = ["req1", "opt1"] ∧
    (∀ cmd : Command, sortedArgs cmd =
      cmd.argsOrder.filter (fun n => argRequired cmd n)
        ++ cmd.argsOrder.filter (fun n => !argRequired cmd n)) ∧
    (∀ (fs : FileSystem) (cmd : Command) (tokens : List String) (m m₁ : ParsedMap),
      (sortedArgs cmd).Nodup →
      processArgsAux fs cmd tokens (sortedArgs cmd) 0 m = (.ok, m₁) →
      ∀ i (h : i < (sortedArgs cmd).length),
        m₁ ((sortedArgs cmd).get ⟨i, h⟩) = some (tokens.getD i "")) := by
  refine ⟨by decide, fun cmd => rfl, ?_⟩
  intro fs cmd tokens m m₁ hnd hrun i h
  have := processArgsAux_assign fs cmd tokens (sortedArgs cmd) 0 m m₁ hnd hrun i h
  rwa [Nat.zero_add] at this

/-- C5, witness: running the ordered args of c5Cmd on one leftover token
assigns it to req1 (the required arg moved to the front), while opt1
receives the empty string. -/
theorem c5_witness :
    (processArgsAux fsEmpty c5Cmd ["aaa"] (sortedArgs c5Cmd) 0 (fun _ => none)).2
        ((sortedArgs c5Cmd).get ⟨0, by decide⟩) = some "aaa" ∧
    (processArgsAux fsEmpty c5Cmd ["aaa"] (sortedArgs c5Cmd) 0 (fun _ => none)).2
        ((sortedArgs c5Cmd).get ⟨1, by decide⟩) = some "" :=
  ⟨c5_sorted_args_order.2.2 fsEmpty c5Cmd ["aaa"] (fun _ => none)
      (processArgsAux fsEmpty c5Cmd ["aaa"] (sortedArgs c5Cmd) 0 (fun _ => none)).2
      (by decide) rfl 0 (by decide),
   c5_sorted_args_order.2.2 fsEmpty c5Cmd ["aaa"] (fun _ => none)
      (processArgsAux fsEmpty c5Cmd ["aaa"] (sortedArgs c5Cmd) 0 (fun _ => none)).2
      (by decide) rfl 1 (by decide)⟩

theorem mapSet_mapSet (m : ParsedMap) (k a b : String) :
    mapSet (mapSet m k a) k b = mapSet m k b := by
  funext x
  by_cases hx : x = k <;> simp [mapSet, hx]

/-- One iteration of the processFlags loop over a single flag name,
with `.ok` meaning the loop continues with the updated parsed map. -/
def flagStep (fs : FileSystem) (nfl afl : String → Option FlagVal) (cmd : Command)
    (n : String) (m : ParsedMap) : StepRes × ParsedMap :=
  match cmd.flags.lookup n with
  | none => (.crash, m)
  | some flagP =>
    if flagP.valueType = TypeBool then
      let m0 := mapSet m n "false"
      match nfl n with
      | some (.b bv) =>
        if bv then (.ok, mapSet m0 n "true")
        else if flagP.aliasName ≠ "" then
          match afl flagP.aliasName with
          | some (.b av) => (.ok, if av then mapSet m0 n "true" else m0)
          | _ => (.crash, m0)
        else (.ok, m0)
      | _ => (.crash, m0)
    else
      let aliasValueRes : Option String :=
        if flagP.aliasName ≠ "" then
          match afl flagP.aliasName with
          | some (.s sv) => some sv
          | _ => none
        else some ""
      match aliasValueRes with
      | none => (.crash, m)
      | some aliasValue =>
        match nfl n with
        | some (.s nameValue) =>
          if nameValue ≠ "" ∧ aliasValue ≠ "" then
            (.failed (.conflictingForms flagP.aliasName flagP.name), m)
          else
            let flagValue := if nameValue ≠ "" then nameValue else aliasValue
            match validateValue fs flagP flagValue with
            | some e => (.failed (.flagInvalid n e), m)
            | none => (.ok, mapSet m n flagValue)
        | _ => (.crash, m)

theorem processFlagsAux_cons (fs : FileSystem) (nfl afl : String → Option FlagVal)
    (n : String) (rest : List String) (cmd : Command) (m : ParsedMap) :
    processFlagsAux fs nfl afl (n :: rest) cmd m =
      match flagStep fs nfl afl cmd n m with
      | (.ok, m') => processFlagsAux fs nfl afl rest cmd m'
      | r => r := by
  simp only [processFlagsAux, flagStep]
  repeat' split
  all_goals first | rfl | simp_all

theorem processFlagsAux_append (fs : FileSystem) (nfl afl : String → Option FlagVal) :
    ∀ (l₁ l₂ : List String) (cmd : Command) (m : ParsedMap),
      processFlagsAux fs nfl afl (l₁ ++ l₂) cmd m =
        match processFlagsAux fs nfl afl l₁ cmd m with
        | (.ok, m₁) => processFlagsAux fs nfl afl l₂ cmd m₁
        | (.crash, m₁) => (.crash, m₁)
        | (.failed e, m₁) => (.failed e, m₁) := by
  intro l₁
  induction l₁ with
  | nil => intro l₂ cmd m; rfl
  | cons g rest ih =>
    intro l₂ cmd m
    rw [List.cons_append, processFlagsAux_cons, processFlagsAux_cons]
    cases hstep : flagStep fs nfl afl cmd g m with
    | mk s m' =>
      cases s with
      | ok =>
        simp only []
        exact ih l₂ cmd m'
      | crash => rfl
      | failed e => rfl

theorem flagStep_frame (fs : FileSystem) (nfl afl : String → Option FlagVal) (cmd : Command)
    (n : String) (m : ParsedMap) (x : String) (hxn : x ≠ n) :
    (flagStep fs nfl afl cmd n m).2 x = m x := by
  unfold flagStep
  repeat' split
  all_goals try simp [mapSet, hxn]
  all_goals
    first
      | (split_ifs <;> first | rfl | (split <;> simp [mapSet, hxn]))
      | (split <;> simp [mapSet, hxn])

theorem processFlagsAux_frame (fs : FileSystem) (nfl afl : String → Option FlagVal) :
    ∀ (lst : List String) (cmd : Command) (m : ParsedMap) (x : String), x ∉ lst →
      (processFlagsAux fs nfl afl lst cmd m).2 x = m x := by
  intro lst
  induction lst with
  | nil => intro cmd m x _; rfl
  | cons n rest ih =>
    intro cmd m x hx
    have hxn : x ≠ n := fun h => hx (h ▸ List.mem_cons_self n rest)
    have hxr : x ∉ rest := fun h => hx (List.mem_cons_of_mem n h)
    rw [processFlagsAux_cons]
    cases hstep : flagStep fs nfl afl cmd n m with
    | mk s m' =>
      have hm' : m' x = m x := by
        have hfr := flagStep_frame fs nfl afl cmd n m x hxn
        rw [hstep] at hfr
        exact hfr
      cases s with
      | ok =>
        simp only []
        exact (ih cmd m' x hxr).trans hm'
      | crash => exact hm'
      | failed e => exact hm'

theorem flagStep_conflict (fs : FileSystem) (nfl afl : String → Option FlagVal)
    (cmd : Command) (m : ParsedMap) (f : String) (p : Param) (nv av : String)
    (hl : cmd.flags.lookup f = some p) (hb : p.valueType ≠ TypeBool)
    (ha : p.aliasName ≠ "") (hn : nfl f = some (.s nv)) (hnv : nv ≠ "")
    (haf : afl p.aliasName = some (.s av)) (hav : av ≠ "") :
    flagStep fs nfl afl cmd f m = (.failed (.conflictingForms p.aliasName p.name), m) := by
  simp only [flagStep, hl, if_neg hb, if_pos ha, haf, hn]
  rw [if_pos ⟨hnv, hav⟩]

theorem flagStep_bool (fs : FileSystem) (nfl afl : String → Option FlagVal)
    (cmd : Command) (m : ParsedMap) (f : String) (p : Param) (nb ab : Bool)
    (hl : cmd.flags.lookup f = some p) (hb : p.valueType = TypeBool)
    (hn : nfl f = some (.b nb)) (ha : p.aliasName ≠ "") (haf : afl p.aliasName = some (.b ab)) :
    flagStep fs nfl afl cmd f m
      = (.ok, mapSet m f (if nb || ab then "true" else "false")) := by
  simp only [flagStep, hl, if_pos hb, hn]
  cases nb with
  | true =>
    rw [if_pos (rfl : (true : Bool) = true), mapSet_mapSet]
    simp
  | false =>
    rw [if_neg (by decide : ¬((false : Bool) = true)), if_pos ha, haf]
    cases ab with
    | true =>
      simp only []
      rw [mapSet_mapSet]
      simp
    | false =>
      simp only []
      simp

/-- C6: for a non-boolean flag supplied with non-empty values in both
the long-name and the short-alias form, flag processing (after the
earlier flags succeeded) fails immediately with the conflicting-forms
error and records no parsed value for that flag; boolean flags are
exempt — one merged boolean result is recorded as the literal string
true or false. -/
theorem c6_conflicting_flag_forms :
    (∀ (fs : FileSystem) (nfl afl : String → Option FlagVal) (l₁ l₂ : List String)
      (cmd : Command) (m m₁ : ParsedMap) (f : String) (p : Param) (nv av : String),
      processFlagsAux fs nfl afl l₁ cmd m = (.ok, m₁) →
      f ∉ l₁ →
      cmd.flags.lookup f = some p → p.valueType ≠ TypeBool → p.aliasName ≠ "" →
      nfl f = some (.s nv) → nv ≠ "" → afl p.aliasName = some (.s av) → av ≠ "" →
      processFlagsAux fs nfl afl (l₁ ++ f :: l₂) cmd m
        = (.failed (.conflictingForms p.aliasName p.name), m₁) ∧ m₁ f = m f) ∧
    (∀ (fs : FileSystem) (nfl afl : String → Option FlagVal) (l₂ : List String)
      (cmd : Command) (m : ParsedMap) (f : String) (p : Param) (nb ab : Bool),
      cmd.flags.lookup f = some p → p.valueType = TypeBool →
      nfl f = some (.b nb) → p.aliasName ≠ "" → afl p.aliasName = some (.b ab) →
      processFlagsAux fs nfl afl (f :: l₂) cmd m
        = processFlagsAux fs nfl afl l₂ cmd
            (mapSet m f (if nb || ab then "true" else "false"))) := by
  constructor
  · intro fs nfl afl l₁ l₂ cmd m m₁ f p nv av hrun hfl hl hb ha hn hnv haf hav
    have happ := processFlagsAux_append fs nfl afl l₁ (f :: l₂) cmd m
    rw [hrun] at happ
    constructor
    · rw [happ]
      show processFlagsAux fs nfl afl (f :: l₂) cmd m₁
          = (.failed (.conflictingForms p.aliasName p.name), m₁)
      rw [processFlagsAux_cons,
        flagStep_conflict fs nfl afl cmd m₁ f p nv av hl hb ha hn hnv haf hav]
    · calc m₁ f = (processFlagsAux fs nfl afl l₁ cmd m).2 f := by rw [hrun]
        _ = m f := processFlagsAux_frame fs nfl afl l₁ cmd m f hfl
  · intro fs nfl afl l₂ cmd m f p nb ab hl hb hn ha haf
    rw [processFlagsAux_cons, flagStep_bool fs nfl afl cmd m f p nb ab hl hb hn ha haf]

/-- Flag and parsed maps exhibiting the conflicting-forms failure: a
non-bool flag named text with alias t, with both forms parsed non-empty. -/
def c6Param : Param :=
  { name := "text", aliasName := "t", valuePlaceholder := "T", usage := "",
    valueType := TypeString, flags := 0, onTrue := none }

def c6Cmd : Command :=
  { name := "cmd", usage := "", flags := [("text", c6Param)], args := [], argsOrder := [],
    env := [], handler := fun _ _ => 0, onPostValidation := none }

def c6Nfl : String → Option FlagVal := fun k => if k = "text" then some (.s "a") else none

def c6Afl : String → Option FlagVal := fun k => if k = "t" then some (.s "b") else none

/-- C6, witness: processing the text flag with both forms non-empty
yields the conflicting-forms failure and leaves the parsed-flags map
untouched at that name. -/
theorem c6_witness :
    processFlagsAux fsEmpty c6Nfl c6Afl ([] ++ "text" :: []) c6Cmd (fun _ => none)
      = (.failed (.conflictingForms "t" "text"), fun _ => none) ∧
    (fun _ => none : ParsedMap) "text" = (fun _ => none : ParsedMap) "text" :=
  c6_conflicting_flag_forms.1 fsEmpty c6Nfl c6Afl [] [] c6Cmd (fun _ => none) (fun _ => none)
    "text" c6Param "a" "b" rfl (by simp) rfl (by decide) (by decide) rfl (by decide) rfl
    (by decide)

/-- The tail of parseFlags after the onTrue hooks have completed: flag
validation, positional-arg validation and the post-validation hook, all
evaluated against the hook-mutated command. -/
def postHookPipeline (fs : FileSystem) (nfl afl : String → Option FlagVal)
    (flagNames : List String) (tokens : List String) (cmd2 : Command) (fm am : ParsedMap) :
    StepRes × ParsedMap × ParsedMap :=
  match processFlagsAux fs nfl afl flagNames cmd2 fm with
  | (.crash, fm2) => (.crash, fm2, am)
  | (.failed e, fm2) => (.failed e, fm2, am)
  | (.ok, fm2) =>
    match processArgsAux fs cmd2 tokens (sortedArgs cmd2) 0 am with
    | (.crash, am2) => (.crash, fm2, am2)
    | (.failed e, am2) => (.failed e, fm2, am2)
    | (.ok, am2) =>
      match cmd2.onPostValidation with
      | none => (.ok, fm2, am2)
      | some chk =>
        match chk (cmd2.flags.map fun kp => (kp.1, kp.2.flags)) with
        | some msg => (.failed (.postValidationFailed msg), fm2, am2)
        | none => (.ok, fm2, am2)

theorem parseFlagsP_hooks_first (fs : FileSystem) (getenv : String → String)
    (envOrder : List String) (input : RawInput) (cmd : Command) (fm am : ParsedMap)
    (cmd2 : Command)
    (henv : checkEnvAux fs cmd.env getenv envOrder = none)
    (hhooks : processOnTrueAux (nflagsOf cmd input) (aflagsOf cmd input) (sortedFlags cmd) cmd
      = some cmd2) :
    parseFlagsP fs getenv envOrder input cmd fm am
      = postHookPipeline fs (nflagsOf cmd input) (aflagsOf cmd input) (sortedFlags cmd)
          input.argsLeft cmd2 fm am := by
  unfold parseFlagsP postHookPipeline
  rw [henv]
  simp only [hhooks]

/-- The two flags of the end-to-end hook scenario from cli_test.go:
alphanumdots (Alphanumeric with dots allowed, initially optional) and
the boolean make-required flag whose onTrue hook adds IsRequired to
alphanumdots. -/
def c3AlnumParam : Param :=
  { name := "alphanumdots", aliasName := "a", valuePlaceholder := "Alphanum with dots",
    usage := "Can have dots", valueType := TypeAlphanumeric, flags := AllowDots, onTrue := none }

def c3BoolParam : Param :=
  { name := "make-required", aliasName := "r", valuePlaceholder := "",
    usage := "Make alphanumdots required", valueType := TypeBool, flags := 0,
    onTrue := some (.orFlagBits "alphanumdots" IsRequired) }

def c3Cmd : Command :=
  { name := "cmd1", usage := "Prints out a string",
    flags := [("alphanumdots", c3AlnumParam), ("make-required", c3BoolParam)],
    args := [], argsOrder := [], env := [],
    handler := fun _ _ => 0, onPostValidation := none }

def c3Cli : Broccli :=
  { name := "Example", usage := "App", author := "Author",
    commands := [("cmd1", c3Cmd)], env := [] }

/-- Parse result of the external flag parser for the scenario: the
boolean flag resolved to `r` (under either registered name), no string
flag values, no leftover tokens. -/
def c3Input (r : Bool) : RawInput :=
  { boolVal := fun k => r && (k == "make-required" || k == "r"),
    strVal := fun _ => "", argsLeft := [] }

/-- C3: all onTrue hooks of a command's boolean flags run to completion
before any non-boolean flag is validated — parseFlags equals the
post-hook pipeline applied to the hook-mutated command; consequently,
in the test scenario, supplying the boolean make-required flag while
omitting alphanumdots makes that flag's validation see Required and the
run exits 1 with ValueMissing, while without the boolean flag the same
invocation succeeds and dispatches the handler. -/
theorem c3_hooks_before_validation :
    (∀ (fs : FileSystem) (getenv : String → String) (envOrder : List String)
      (input : RawInput) (cmd : Command) (fm am : ParsedMap) (cmd2 : Command),
      checkEnvAux fs cmd.env getenv envOrder = none →
      processOnTrueAux (nflagsOf cmd input) (aflagsOf cmd input) (sortedFlags cmd) cmd
        = some cmd2 →
      parseFlagsP fs getenv envOrder input cmd fm am
        = postHookPipeline fs (nflagsOf cmd input) (aflagsOf cmd input) (sortedFlags cmd)
            input.argsLeft cmd2 fm am) ∧
    run c3Cli ["cmd1", "-r"] fsEmpty (fun _ => "") [] [] (c3Input true)
        (fun _ => none) (fun _ => none)
      = some (.failed (.flagInvalid "alphanumdots" .paramValueMissing)) ∧
    exitCode (.failed (.flagInvalid "alphanumdots" .paramValueMissing)) = 1 ∧
    run c3Cli ["cmd1"] fsEmpty (fun _ => "") [] [] (c3Input false)
        (fun _ => none) (fun _ => none)
      = some (.handled 0) :=
  ⟨fun fs ge eo input cmd fm am cmd2 henv hhooks =>
      parseFlagsP_hooks_first fs ge eo input cmd fm am cmd2 henv hhooks,
    by decide, rfl, by decide⟩

/-- C3, witness: the hooks-first equation applied to the concrete
scenario, with the hook-mutated command made explicit. -/
theorem c3_witness :
    parseFlagsP fsEmpty (fun _ => "") [] (c3Input true) c3Cmd (fun _ => none) (fun _ => none)
      = postHookPipeline fsEmpty (nflagsOf c3Cmd (c3Input true)) (aflagsOf c3Cmd (c3Input true))
          (sortedFlags c3Cmd) (c3Input true).argsLeft
          (runHook (.orFlagBits "alphanumdots" IsRequired) c3Cmd)
          (fun _ => none) (fun _ => none) :=
  c3_hooks_before_validation.1 fsEmpty (fun _ => "") [] (c3Input true) c3Cmd
    (fun _ => none) (fun _ => none) (runHook (.orFlagBits "alphanumdots" IsRequired) c3Cmd)
    rfl rfl

/-- The hook-invariant shape of a flag: its value type, alias and hook.
Hooks only OR constraint bits, so these fields never change. -/
def paramShape (p : Param) : Nat × String × Option HookAction :=
  (p.valueType, p.aliasName, p.onTrue)

theorem orBitsOn_lookup (nm : String) (bits : Nat) (k : String) :
    ∀ ps : List (String × Param),
      ((orBitsOn ps nm bits).lookup k).map paramShape = (ps.lookup k).map paramShape := by
  intro ps
  induction ps with
  | nil => rfl
  | cons hd tl ih =>
    obtain ⟨a, b⟩ := hd
    simp only [orBitsOn, List.map_cons]
    by_cases hk : a = nm
    · rw [if_pos hk]
      simp only [List.lookup]
      cases hka : k == a with
      | true => rfl
      | false => exact ih
    · rw [if_neg hk]
      simp only [List.lookup]
      cases hka : k == a with
      | true => rfl
      | false => exact ih

theorem runHook_lookup_shape (h : HookAction) :
    ∀ (c : Command) (k : String),
      ((runHook h c).flags.lookup k).map paramShape = (c.flags.lookup k).map paramShape := by
  induction h with
  | nop => intro c k; rfl
  | seq a b iha ihb =>
    intro c k
    show ((runHook b (runHook a c)).flags.lookup k).map paramShape = _
    rw [ihb (runHook a c) k, iha c k]
  | orFlagBits nm bits =>
    intro c k
    exact orBitsOn_lookup nm bits k c.flags
  | orArgBits nm bits => intro c k; rfl

/-- Conditions under which processOnTrue's alias dereference panics at
flag f: a boolean flag with an onTrue hook, empty alias, and long form
resolved false. -/
def crashFlag (nfl : String → Option FlagVal) (cmd : Command) (f : String) : Prop :=
  ∃ p : Param, cmd.flags.lookup f = some p ∧ p.valueType = TypeBool ∧
    p.onTrue.isSome = true ∧ p.aliasName = "" ∧ nfl f = some (.b false)

theorem crashFlag_runHook (nfl : String → Option FlagVal) (cmd : Command) (f : String)
    (h : HookAction) (hc : crashFlag nfl cmd f) : crashFlag nfl (runHook h cmd) f := by
  obtain ⟨p, hl, hb, hh, ha, hn⟩ := hc
  have hshape := runHook_lookup_shape h cmd f
  rw [hl] at hshape
  cases hl2 : (runHook h cmd).flags.lookup f with
  | none =>
    rw [hl2] at hshape
    simp at hshape
  | some p2 =>
    rw [hl2] at hshape
    simp only [Option.map_some'] at hshape
    have hs := Option.some.inj hshape
    refine ⟨p2, hl2, ?_, ?_, ?_, hn⟩
    · exact (congrArg Prod.fst hs).trans hb
    · have h2 := congrArg (fun t => t.2.2) hs
      simp only [] at h2
      rw [show p2.onTrue = p.onTrue from h2, hh]
    · exact (congrArg (fun t => t.2.1) hs).trans ha

theorem processOnTrueAux_crash (nfl afl : String → Option FlagVal) (hafl : afl "" = none) :
    ∀ (lst : List String) (cmd : Command) (f : String),
      f ∈ lst → crashFlag nfl cmd f →
      processOnTrueAux nfl afl lst cmd = none := by
  intro lst
  induction lst with
  | nil =>
    intro cmd f hmem
    cases hmem
  | cons g rest ih =>
    intro cmd f hmem hcf
    rcases List.mem_cons.mp hmem with rfl | hmem2
    · obtain ⟨p, hl, hb, hh, ha, hn⟩ := hcf
      obtain ⟨hook, hhk⟩ := Option.isSome_iff_exists.mp hh
      simp only [processOnTrueAux, hl]
      rw [if_neg (not_not_intro hb)]
      simp [hhk, hn, ha, hafl]
    · simp only [processOnTrueAux]
      cases hlg : cmd.flags.lookup g with
      | none => rfl
      | some gp =>
        simp only []
        by_cases hgb : gp.valueType ≠ TypeBool
        · rw [if_pos hgb]
          exact ih cmd f hmem2 hcf
        · rw [if_neg hgb]
          cases hgh : gp.onTrue with
          | none => exact ih cmd f hmem2 hcf
          | some hook =>
            cases hgn : nfl g with
            | none => rfl
            | some fv =>
              cases fv with
              | s sv => rfl
              | b bv =>
                cases bv with
                | true => exact ih (runHook hook cmd) f hmem2 (crashFlag_runHook nfl cmd f hook hcf)
                | false =>
                  cases hga : afl gp.aliasName with
                  | none => rfl
                  | some av =>
                    cases av with
                    | s sv2 => rfl
                    | b ab =>
                      cases ab with
                      | true =>
                        exact ih (runHook hook cmd) f hmem2 (crashFlag_runHook nfl cmd f hook hcf)
                      | false => exact ih cmd f hmem2 hcf

theorem lookup_mem_keys (k : String) (p : Param) :
    ∀ ps : List (String × Param), ps.lookup k = some p → k ∈ ps.map Prod.fst := by
  intro ps
  induction ps with
  | nil => intro h; cases h
  | cons hd tl ih =>
    obtain ⟨a, b⟩ := hd
    intro h
    simp only [List.lookup] at h
    cases hka : k == a with
    | true =>
      have hk : k = a := beq_iff_eq.mp hka
      rw [hk]
      exact List.mem_cons_self a _
    | false =>
      rw [hka] at h
      exact List.mem_cons_of_mem a (ih h)

theorem mem_sortStrings (l : List String) (k : String) (h : k ∈ l) : k ∈ sortStrings l :=
  (List.perm_insertionSort _ l).mem_iff.mpr h

/-- C9: a boolean flag carrying an onTrue hook but an empty alias makes
processOnTrue dereference the missing alias entry (a nil type assertion,
i.e. a panic) whenever the flag's long form does not resolve true:
parseFlags crashes and Run returns no exit code.  The guard that skips
the alias lookup when the alias is empty exists in flag-value processing
(third conjunct) but not in onTrue processing. -/
theorem c9_onTrue_empty_alias_crash :
    (∀ (fs : FileSystem) (ge : String → String) (eo : List String) (input : RawInput)
      (cmd : Command) (fm am : ParsedMap) (f : String) (p : Param),
      checkEnvAux fs cmd.env ge eo = none →
      cmd.flags.lookup f = some p →
      p.valueType = TypeBool → p.onTrue.isSome = true → p.aliasName = "" →
      input.boolVal f = false →
      parseFlagsP fs ge eo input cmd fm am = (.crash, fm, am)) ∧
    (∀ (cli : Broccli) (tok : String) (rest : List String) (fs : FileSystem)
      (ge : String → String) (ro co : List String) (input : RawInput) (fm am : ParsedMap)
      (cmd : Command) (f : String) (p : Param),
      tok ≠ "-h" → tok ≠ "--help" → cli.commands.lookup tok = some cmd →
      rest.headD "" ≠ "-h" → rest.headD "" ≠ "--help" →
      checkEnvAux fs cli.env ge ro = none →
      checkEnvAux fs cmd.env ge co = none →
      cmd.flags.lookup f = some p →
      p.valueType = TypeBool → p.onTrue.isSome = true → p.aliasName = "" →
      input.boolVal f = false →
      run cli (tok :: rest) fs ge ro co input fm am = none) ∧
    (∀ (fs : FileSystem) (nfl afl : String → Option FlagVal) (cmd : Command) (m : ParsedMap)
      (f : String) (p : Param) (bv : Bool),
      cmd.flags.lookup f = some p → p.valueType = TypeBool →
      nfl f = some (.b bv) → p.aliasName = "" →
      flagStep fs nfl afl cmd f m = (.ok, mapSet m f (if bv then "true" else "false"))) := by
  have part1 : ∀ (fs : FileSystem) (ge : String → String) (eo : List String) (input : RawInput)
      (cmd : Command) (fm am : ParsedMap) (f : String) (p : Param),
      checkEnvAux fs cmd.env ge eo = none →
      cmd.flags.lookup f = some p →
      p.valueType = TypeBool → p.onTrue.isSome = true → p.aliasName = "" →
      input.boolVal f = false →
      parseFlagsP fs ge eo input cmd fm am = (.crash, fm, am) := by
    intro fs ge eo input cmd fm am f p henv hl hb hh ha hn
    have hmem : f ∈ sortedFlags cmd := mem_sortStrings _ f (lookup_mem_keys f p cmd.flags hl)
    have hcf : crashFlag (nflagsOf cmd input) cmd f :=
      ⟨p, hl, hb, hh, ha, by simp [nflagsOf, hl, hb, hn]⟩
    have hcrash := processOnTrueAux_crash (nflagsOf cmd input) (aflagsOf cmd input)
      rfl (sortedFlags cmd) cmd f hmem hcf
    unfold parseFlagsP
    rw [henv]
    simp only [hcrash]
  refine ⟨part1, ?_, ?_⟩
  · intro cli tok rest fs ge ro co input fm am cmd f p h1 h2 hcmd h3 h4 hreg henv hl hb hh ha hn
    have hpf := part1 fs ge co input cmd fm am f p henv hl hb hh ha hn
    unfold run
    simp only []
    rw [if_neg (not_or.mpr ⟨h1, h2⟩)]
    simp only [hcmd]
    rw [if_neg (not_or.mpr ⟨h3, h4⟩)]
    simp only [hreg, hpf]
  · intro fs nfl afl cmd m f p bv hl hb hn ha
    simp only [flagStep, hl, if_pos hb, hn]
    cases bv with
    | true =>
      rw [if_pos (rfl : (true : Bool) = true), mapSet_mapSet]
      simp
    | false =>
      rw [if_neg (by decide : ¬((false : Bool) = true)), if_neg (not_not_intro ha)]
      simp

/-- A command exhibiting the onTrue panic: one boolean flag with a hook
and no alias, invoked without that flag. -/
def c9Param : Param :=
  { name := "quiet", aliasName := "", valuePlaceholder := "", usage := "",
    valueType := TypeBool, flags := 0, onTrue := some .nop }

def c9Cmd : Command :=
  { name := "cmd", usage := "", flags := [("quiet", c9Param)], args := [], argsOrder := [],
    env := [], handler := fun _ _ => 0, onPostValidation := none }

def c9Cli : Broccli :=
  { name := "E", usage := "", author := "", commands := [("cmd", c9Cmd)], env := [] }

def c9Input : RawInput := { boolVal := fun _ => false, strVal := fun _ => "", argsLeft := [] }

/-- C9, witness: running the command crashes (no exit code) although
every value is well-formed. -/
theorem c9_witness :
    run c9Cli ["cmd"] fsEmpty (fun _ => "") [] [] c9Input (fun _ => none) (fun _ => none)
      = none :=
  c9_onTrue_empty_alias_crash.2.1 c9Cli "cmd" [] fsEmpty (fun _ => "") [] [] c9Input
    (fun _ => none) (fun _ => none) c9Cmd "quiet" c9Param (by decide) (by decide) rfl
    (by decide) (by decide) rfl rfl rfl rfl rfl rfl rfl

/-- C7: Run's exit code satisfies the claimed case analysis — 0 when no
command token is given or the first (or, after a matching command, the
second) token is a help request; 1 when the first token matches no
registered command name or when any env-var check, flag validation,
argument validation or post-validation hook fails; otherwise exactly the
integer returned by the matched command's handler, propagated verbatim. -/
theorem c7_exit_codes :
    (∀ (cli : Broccli) (fs : FileSystem) (ge : String → String) (ro co : List String)
      (input : RawInput) (fm am : ParsedMap),
      run cli [] fs ge ro co input fm am = some .help ∧ exitCode .help = 0) ∧
    (∀ (cli : Broccli) (tok : String) (rest : List String) (fs : FileSystem)
      (ge : String → String) (ro co : List String) (input : RawInput) (fm am : ParsedMap),
      (tok = "-h" ∨ tok = "--help") →
      run cli (tok :: rest) fs ge ro co input fm am = some .help) ∧
    (∀ (cli : Broccli) (tok : String) (rest : List String) (fs : FileSystem)
      (ge : String → String) (ro co : List String) (input : RawInput) (fm am : ParsedMap),
      tok ≠ "-h" → tok ≠ "--help" → cli.commands.lookup tok = none →
      run cli (tok :: rest) fs ge ro co input fm am = some (.invalidCommand tok) ∧
      exitCode (.invalidCommand tok) = 1) ∧
    (∀ (cli : Broccli) (tok : String) (rest : List String) (fs : FileSystem)
      (ge : String → String) (ro co : List String) (input : RawInput) (fm am : ParsedMap)
      (cmd : Command),
      tok ≠ "-h" → tok ≠ "--help" → cli.commands.lookup tok = some cmd →
      (rest.headD "" = "-h" ∨ rest.headD "" = "--help") →
      run cli (tok :: rest) fs ge ro co input fm am = some (.commandHelp cmd.name) ∧
      exitCode (.commandHelp cmd.name) = 0) ∧
    (∀ (cli : Broccli) (tok : String) (rest : List String) (fs : FileSystem)
      (ge : String → String) (ro co : List String) (input : RawInput) (fm am : ParsedMap)
      (cmd : Command) (e : RunErr),
      tok ≠ "-h" → tok ≠ "--help" → cli.commands.lookup tok = some cmd →
      rest.headD "" ≠ "-h" → rest.headD "" ≠ "--help" →
      (checkEnvAux fs cli.env ge ro = some e ∨
        (checkEnvAux fs cli.env ge ro = none ∧
          (parseFlagsP fs ge co input cmd fm am).1 = .failed e)) →
      run cli (tok :: rest) fs ge ro co input fm am = some (.failed e) ∧
      exitCode (.failed e) = 1) ∧
    (∀ (cli : Broccli) (tok : String) (rest : List String) (fs : FileSystem)
      (ge : String → String) (ro co : List String) (input : RawInput) (fm am : ParsedMap)
      (cmd : Command),
      tok ≠ "-h" → tok ≠ "--help" → cli.commands.lookup tok = some cmd →
      rest.headD "" ≠ "-h" → rest.headD "" ≠ "--help" →
      checkEnvAux fs cli.env ge ro = none →
      (parseFlagsP fs ge co input cmd fm am).1 = .ok →
      run cli (tok :: rest) fs ge ro co input fm am
        = some (.handled (cmd.handler
            (mapGet (parseFlagsP fs ge co input cmd fm am).2.1)
            (mapGet (parseFlagsP fs ge co input cmd fm am).2.2))) ∧
      exitCode (.handled (cmd.handler
            (mapGet (parseFlagsP fs ge co input cmd fm am).2.1)
            (mapGet (parseFlagsP fs ge co input cmd fm am).2.2)))
        = cmd.handler
            (mapGet (parseFlagsP fs ge co input cmd fm am).2.1)
            (mapGet (parseFlagsP fs ge co input cmd fm am).2.2)) := by
  refine ⟨fun cli fs ge ro co input fm am => ⟨rfl, rfl⟩, ?_, ?_, ?_, ?_, ?_⟩
  · intro cli tok rest fs ge ro co input fm am htok
    unfold run
    simp only []
    rw [if_pos htok]
  · intro cli tok rest fs ge ro co input fm am h1 h2 hcmd
    refine ⟨?_, rfl⟩
    unfold run
    simp only []
    rw [if_neg (not_or.mpr ⟨h1, h2⟩)]
    simp [hcmd]
  · intro cli tok rest fs ge ro co input fm am cmd h1 h2 hcmd hrest
    refine ⟨?_, rfl⟩
    unfold run
    simp only []
    rw [if_neg (not_or.mpr ⟨h1, h2⟩)]
    simp only [hcmd]
    rw [if_pos hrest]
  · intro cli tok rest fs ge ro co input fm am cmd e h1 h2 hcmd h3 h4 hfail
    refine ⟨?_, rfl⟩
    unfold run
    simp only []
    rw [if_neg (not_or.mpr ⟨h1, h2⟩)]
    simp only [hcmd]
    rw [if_neg (not_or.mpr ⟨h3, h4⟩)]
    rcases hfail with henv | ⟨henv, hpf⟩
    · simp only [henv]
    · simp only [henv]
      rcases hres : parseFlagsP fs ge co input cmd fm am with ⟨s, fm2, am2⟩
      rw [hres] at hpf
      simp only [] at hpf
      rw [hpf]
  · intro cli tok rest fs ge ro co input fm am cmd h1 h2 hcmd h3 h4 henv hok
    refine ⟨?_, rfl⟩
    unfold run
    simp only []
    rw [if_neg (not_or.mpr ⟨h1, h2⟩)]
    simp only [hcmd]
    rw [if_neg (not_or.mpr ⟨h3, h4⟩)]
    simp only [henv]
    rcases hres : parseFlagsP fs ge co input cmd fm am with ⟨s, fm2, am2⟩
    rw [hres] at hok
    simp only [] at hok
    rw [hok]

/-- The end-to-end example of the specification: a command with a string
flag whose handler returns 2 when the flag value is tekst and 3
otherwise. -/
def c7Param : Param :=
  { name := "text", aliasName := "t", valuePlaceholder := "Text", usage := "Text to check",
    valueType := TypeString, flags := IsRequired, onTrue := none }

def c7Cmd : Command :=
  { name := "cmd", usage := "Prints out a string",
    flags := [("text", c7Param)], args := [], argsOrder := [], env := [],
    handler := fun fl _ => if fl "text" = "tekst" then 2 else 3, onPostValidation := none }

def c7Cli : Broccli :=
  { name := "Example", usage := "App", author := "Author",
    commands := [("cmd", c7Cmd)], env := [] }

def c7Input (v : String) : RawInput :=
  { boolVal := fun _ => false, strVal := fun k => if k = "t" then v else "",
    argsLeft := [] }

/-- C7, witness: the handler's return value is propagated verbatim — the
run with -t tekst yields the handled outcome with the handler's integer,
which evaluates to 2, and with -t other it evaluates to 3; an unknown
command yields invalidCommand with exit code 1. -/
theorem c7_witness :
    run c7Cli ["cmd", "-t", "tekst"] fsEmpty (fun _ => "") [] [] (c7Input "tekst")
        (fun _ => none) (fun _ => none) = some (.handled 2) ∧
    run c7Cli ["cmd", "-t", "other"] fsEmpty (fun _ => "") [] [] (c7Input "other")
        (fun _ => none) (fun _ => none) = some (.handled 3) ∧
    run c7Cli ["wrongcmd"] fsEmpty (fun _ => "") [] [] (c7Input "") (fun _ => none)
        (fun _ => none) = some (.invalidCommand "wrongcmd") ∧
    exitCode (.invalidCommand "wrongcmd") = 1 :=
  ⟨((c7_exit_codes.2.2.2.2.2 c7Cli "cmd" ["-t", "tekst"] fsEmpty (fun _ => "") [] []
      (c7Input "tekst") (fun _ => none) (fun _ => none) c7Cmd (by decide) (by decide) rfl
      (by decide) (by decide) rfl (by decide)).1 : _),
   ((c7_exit_codes.2.2.2.2.2 c7Cli "cmd" ["-t", "other"] fsEmpty (fun _ => "") [] []
      (c7Input "other") (fun _ => none) (fun _ => none) c7Cmd (by decide) (by decide) rfl
      (by decide) (by decide) rfl (by decide)).1 : _),
   ((c7_exit_codes.2.2.1 c7Cli "wrongcmd" [] fsEmpty (fun _ => "") [] [] (c7Input "")
      (fun _ => none) (fun _ => none) (by decide) (by decide) rfl).1 : _),
   rfl⟩

theorem lexLe_total : ∀ as bs : List Char, lexLe as bs = true ∨ lexLe bs as = true := by
  intro as
  induction as with
  | nil => intro bs; exact Or.inl rfl
  | cons a as ih =>
    intro bs
    cases bs with
    | nil => exact Or.inr rfl
    | cons b bs =>
      by_cases hab : a = b
      · subst hab
        rcases ih bs with h | h
        · left
          simp [lexLe, h]
        · right
          simp [lexLe, h]
      · rcases lt_or_gt_of_ne hab with hlt | hgt
        · left
          simp [lexLe, hab, hlt]
        · right
          simp [lexLe, Ne.symm hab, hgt]

theorem lexLe_trans : ∀ as bs cs : List Char,
    lexLe as bs = true → lexLe bs cs = true → lexLe as cs = true := by
  intro as
  induction as with
  | nil => intro bs cs _ _; rfl
  | cons a as ih =>
    intro bs cs h1 h2
    cases bs with
    | nil => simp [lexLe] at h1
    | cons b bs =>
      cases cs with
      | nil => simp [lexLe] at h2
      | cons c cs =>
        by_cases hab : a = b
        · subst hab
          by_cases hbc : a = c
          · subst hbc
            simp only [lexLe, if_pos rfl] at h1 h2 ⊢
            exact ih bs cs h1 h2
          · simp only [lexLe, if_neg hbc] at h2 ⊢
            exact h2
        · simp only [lexLe, if_neg hab] at h1
          have hlt : a < b := of_decide_eq_true h1
          by_cases hbc : b = c
          · subst hbc
            simp only [lexLe, if_neg hab]
            exact decide_eq_true hlt
          · simp only [lexLe, if_neg hbc] at h2
            have hltbc : b < c := of_decide_eq_true h2
            have hac : a < c := lt_trans hlt hltbc
            simp only [lexLe, if_neg (ne_of_lt hac)]
            exact decide_eq_true hac

instance strLeBIsTotal : IsTotal String (fun a b => strLeB a b = true) :=
  ⟨fun a b => lexLe_total a.data b.data⟩

instance strLeBIsTrans : IsTrans String (fun a b => strLeB a b = true) :=
  ⟨fun a b c => lexLe_trans a.data b.data c.data⟩

theorem sortStrings_sorted (l : List String) :
    (sortStrings l).Sorted (fun a b => strLeB a b = true) :=
  List.sorted_insertionSort _ l

theorem sortStrings_perm (l : List String) : (sortStrings l).Perm l :=
  List.perm_insertionSort _ l

/-- The check performed for a single env-var name during checkEnv. -/
def envCheckOne (fs : FileSystem) (envm : List (String × Param)) (getenv : String → String)
    (n : String) : Option RunErr :=
  match envm.lookup n with
  | none => none
  | some p =>
    match validateValue fs (forceRequired p) (getenv n) with
    | some e => some (.envInvalid p.name e)
    | none => none

theorem checkEnvAux_none_iff (fs : FileSystem) (envm : List (String × Param))
    (getenv : String → String) :
    ∀ order : List String,
      checkEnvAux fs envm getenv order = none ↔
        ∀ n ∈ order, envCheckOne fs envm getenv n = none := by
  intro order
  induction order with
  | nil => simp [checkEnvAux]
  | cons h t ih =>
    simp only [checkEnvAux]
    cases hl : envm.lookup h with
    | none =>
      rw [ih]
      constructor
      · intro hall n hmem
        rcases List.mem_cons.mp hmem with rfl | hm2
        · simp [envCheckOne, hl]
        · exact hall n hm2
      · intro hall n hm2
        exact hall n (List.mem_cons_of_mem h hm2)
    | some p =>
      simp only []
      cases hv : validateValue fs (forceRequired p) (getenv h) with
      | some e =>
        constructor
        · intro hfalse
          exact absurd hfalse (by simp)
        · intro hall
          have hone := hall h (List.mem_cons_self h t)
          simp [envCheckOne, hl, hv] at hone
      | none =>
        rw [ih]
        constructor
        · intro hall n hmem
          rcases List.mem_cons.mp hmem with rfl | hm2
          · simp [envCheckOne, hl, hv]
          · exact hall n hm2
        · intro hall n hm2
          exact hall n (List.mem_cons_of_mem h hm2)

/-- Lexicographic ordering of the declared env-var names. -/
def sortedEnvNames (envm : List (String × Param)) : List String :=
  sortStrings (envm.map Prod.fst)

/-- Statement of claim C8 exactly as written: named flags are processed
in lexicographic order of their declared names, and env vars too, so the
processing order (including which env var's failure is reported first)
is deterministic across runs with identical inputs. -/
def ClaimC8 : Prop :=
  (∀ cmd : Command, (sortedFlags cmd).Sorted (fun a b => strLeB a b = true) ∧
    (sortedFlags cmd).Perm (cmd.flags.map Prod.fst)) ∧
  (∀ (fs : FileSystem) (envm : List (String × Param)) (getenv : String → String)
    (order : List String), order.Perm (envm.map Prod.fst) →
    checkEnvAux fs envm getenv order = checkEnvAux fs envm getenv (sortedEnvNames envm))

def c8ParamA : Param :=
  { name := "A", aliasName := "", valuePlaceholder := "", usage := "",
    valueType := TypeString, flags := 0, onTrue := none }

def c8ParamB : Param :=
  { name := "B", aliasName := "", valuePlaceholder := "", usage := "",
    valueType := TypeString, flags := 0, onTrue := none }

def c8Envm : List (String × Param) := [("A", c8ParamA), ("B", c8ParamB)]

/-- C8, counterexample to the claim as stated: with two env vars A and B
that both fail (unset in the environment, forced Required), the Go map
iteration order ["B", "A"] — a legal range order — reports B first,
while the lexicographic order reports A first; the source's checkEnv and
Run iterate the env maps with `for ... range`, which Go does not sort,
so the reported failure is not determined by the declared names. -/
theorem c8_counterexample :
    checkEnvAux fsEmpty c8Envm (fun _ => "") ["B", "A"]
      = some (.envInvalid "B" .paramValueMissing) ∧
    checkEnvAux fsEmpty c8Envm (fun _ => "") (sortedEnvNames c8Envm)
      = some (.envInvalid "A" .paramValueMissing) ∧
    (["B", "A"] : List String).Perm (c8Envm.map Prod.fst) ∧
    ¬ ClaimC8 := by
  refine ⟨by decide, by decide, by decide, fun hcl => ?_⟩
  have h := hcl.2 fsEmpty c8Envm (fun _ => "") ["B", "A"] (by decide)
  exact absurd h (by decide)

/-- C8 (amended): named flags are processed in lexicographic order of
their declared names (sortedFlags is a sorted permutation of the flag
map's keys); env vars are processed in an unspecified map iteration
order, so only order-insensitive observations — such as whether the env
check fails at all — are deterministic, not the identity of the first
reported failure. -/
theorem c8_amended :
    (∀ cmd : Command, (sortedFlags cmd).Sorted (fun a b => strLeB a b = true) ∧
      (sortedFlags cmd).Perm (cmd.flags.map Prod.fst)) ∧
    (∀ (fs : FileSystem) (envm : List (String × Param)) (getenv : String → String)
      (o₁ o₂ : List String), o₁.Perm o₂ →
      (checkEnvAux fs envm getenv o₁ = none ↔ checkEnvAux fs envm getenv o₂ = none)) := by
  constructor
  · intro cmd
    exact ⟨sortStrings_sorted _, sortStrings_perm _⟩
  · intro fs envm getenv o₁ o₂ hperm
    rw [checkEnvAux_none_iff, checkEnvAux_none_iff]
    constructor
    · intro hall n hmem
      exact hall n (hperm.mem_iff.mpr hmem)
    · intro hall n hmem
      exact hall n (hperm.mem_iff.mp hmem)

/-- C8, witness: two legal iteration orders of the same env map agree on
whether the env check succeeds. -/
theorem c8_witness :
    checkEnvAux fsEmpty c8Envm (fun _ => "") ["B", "A"] = none ↔
      checkEnvAux fsEmpty c8Envm (fun _ => "") ["A", "B"] = none :=
  c8_amended.2 fsEmpty c8Envm (fun _ => "") ["B", "A"] ["A", "B"] (by decide)
